import Mathlib

/-! Shallow embedding of the face-recognition attendance system:
`backend/app/services/faiss_service.py`, `backend/app/services/camera_runner.py`,
`backend/app/services/training_service.py` and
`backend/app/api/v1/endpoints/attendance.py`.

Numeric kernels that live inside numpy/faiss (vector normalization and the
metric value reported by the flat index) are abstracted as a `VecOps`
parameter; everything else is translated from the repository's Python code.
Disk writes can fail (`save_index` re-raises file-system errors in the
source), so persistence takes an explicit success flag; blocking forever on
a lock is modelled as `Option.none`. -/

/-- Numeric kernels supplied by numpy/faiss: `normalize` models
`v / np.linalg.norm(v)`, `dist` models the distance value reported by
`faiss.IndexFlatL2.search` between a stored vector and the normalized query. -/
structure VecOps (V : Type) where
  normalize : V → V
  dist : V → V → ℚ

/-- In-memory state of `FaissVectorDB`: the flat index's stored vectors
(`self.index`), the parallel `self.student_ids` list, and the slot-keyed
`self.embeddings_data` dict (an insertion-ordered association list). -/
structure FaissDB (V M : Type) where
  entries : List V
  student_ids : List ℤ
  embeddings_data : List (ℕ × M)
deriving DecidableEq

/-- State of one persisted file: absent, unreadable (reading it raises), or
holding readable data. -/
inductive FileState (α : Type) where
  | missing : FileState α
  | corrupt : FileState α
  | good : α → FileState α
deriving DecidableEq

/-- The two files `save_index` / `_load_index` work with, kept separately
because the source writes them separately: the faiss index file
(`index_path`, the stored vectors) and the pickle (`embeddings_path`,
holding `student_ids` and `embeddings_data`). -/
abbrev DiskState (V M : Type) :=
  FileState (List V) × FileState (List ℤ × List (ℕ × M))

/-- Outcome of one `save_index` call's two file-system writes: both writes
succeed; the index-file write raises (leaving that file corrupt or
untouched and the pickle untouched); or the index file is written and the
pickle write raises (leaving the pickle corrupt or untouched). In the last
two cases the exception is re-raised to the caller. -/
inductive SaveOutcome where
  | success : SaveOutcome
  | failIndex : Bool → SaveOutcome
  | failPickle : Bool → SaveOutcome
deriving DecidableEq

/-- Python dict assignment `d[k] = v` on an insertion-ordered dict:
overwrite in place when the key exists, else append. -/
def dictInsert {M : Type} (l : List (ℕ × M)) (k : ℕ) (v : M) : List (ℕ × M) :=
  if l.any (fun p => p.1 == k) then
    l.map (fun p => if p.1 == k then (k, v) else p)
  else l ++ [(k, v)]

/-- `FaissVectorDB._create_index`: fresh empty index, empty id list, empty metadata. -/
def createIndex (V M : Type) : FaissDB V M := ⟨[], [], []⟩

/-- `FaissVectorDB._load_or_create_index` composed with `_load_index`: if
either file is missing, a fresh index is created; a read failure of either
file raises, is caught, and also falls back to a fresh index; otherwise the
index file and the pickle populate entries, ids and metadata. -/
def loadIndex {V M : Type} (d : DiskState V M) : FaissDB V M :=
  match d.1, d.2 with
  | .good e, .good sm => ⟨e, sm.1, sm.2⟩
  | _, _ => createIndex V M

/-- `FaissVectorDB.save_index`: writes the faiss index file, then the pickle
holding `student_ids` and `embeddings_data` — two separate writes. On
success both files hold the new data; a failure during the first write
re-raises with the pickle untouched; a failure during the second write
re-raises with the NEW index file already on disk beside the stale pickle.
Returns the disk state and whether the call returned without raising. -/
def save_index {V M : Type} (db : FaissDB V M) (w : SaveOutcome)
    (d : DiskState V M) : DiskState V M × Bool :=
  match w with
  | .success =>
    ((.good db.entries, .good (db.student_ids, db.embeddings_data)), true)
  | .failIndex c => ((if c then .corrupt else d.1, d.2), false)
  | .failPickle c => ((.good db.entries, if c then .corrupt else d.2), false)

/-- `FaissVectorDB.add_embedding`: normalize, append to the faiss index and to
`student_ids`, record metadata under the new slot, then save synchronously.
The in-memory mutation happens before the save, so it survives a failed save.
Returns the new state, the new disk state, the save-success flag and the
returned `faiss_id`. -/
def add_embedding {V M : Type} (ops : VecOps V) (db : FaissDB V M) (d : DiskState V M)
    (w : SaveOutcome) (emb : V) (sid : ℤ) (meta : Option M) :
    FaissDB V M × DiskState V M × Bool × ℕ :=
  let faiss_id := db.student_ids.length
  let db' : FaissDB V M :=
    { entries := db.entries ++ [ops.normalize emb]
      student_ids := db.student_ids ++ [sid]
      embeddings_data :=
        match meta with
        | some m => dictInsert db.embeddings_data faiss_id m
        | none => db.embeddings_data }
  let sv := save_index db' w d
  (db', sv.1, sv.2, faiss_id)

/-- `FaissVectorDB.add_multiple_embeddings`: sequential `add_embedding` calls,
each persisting individually. `wok n` gives the outcome of the `n`-th save
of the batch; a failed save raises out of the loop, leaving the adds made
so far in place. Returns final state, disk, next write counter and whether
the whole batch completed. -/
def add_multiple_embeddings {V M : Type} (ops : VecOps V) (wok : ℕ → SaveOutcome)
    (db : FaissDB V M) (d : DiskState V M) (n : ℕ) (embs : List V) (sid : ℤ)
    (meta : Option M) : FaissDB V M × DiskState V M × ℕ × Bool :=
  match embs with
  | [] => (db, d, n, true)
  | e :: rest =>
    let r := add_embedding ops db d (wok n) e sid meta
    if r.2.2.1 then add_multiple_embeddings ops wok r.1 r.2.1 (n + 1) rest sid meta
    else (r.1, r.2.1, n + 1, false)

/-- Insertion step used to model faiss's k-nearest retrieval: insert a
(distance, slot) pair into a distance-ascending list. -/
def insertSorted (x : ℚ × ℕ) : List (ℚ × ℕ) → List (ℚ × ℕ)
  | [] => [x]
  | y :: ys => if x.1 < y.1 then x :: y :: ys else y :: insertSorted x ys

/-- Distance-ascending sort of (distance, slot) pairs, modelling the order in
which `faiss.IndexFlatL2.search` reports neighbors. -/
def sortPairs (l : List (ℚ × ℕ)) : List (ℚ × ℕ) := l.foldr insertSorted []

/-- Semantics of `self.index.search(q, k)` on a flat L2 index: the `k`
smallest (distance, slot) pairs in distance-ascending order (fewer when the
index holds fewer vectors; the source drops faiss's `-1` padding via its
`idx >= 0` check). -/
def indexSearch {V : Type} (ops : VecOps V) (entries : List V) (qn : V) (k : ℕ) :
    List (ℚ × ℕ) :=
  (sortPairs (entries.enum.map (fun p => (ops.dist p.2 qn, p.1)))).take k

/-- `FaissVectorDB.search`: empty index returns `[]`; otherwise normalize the
query, take the k nearest, and for each hit with a valid slot keep it iff its
raw distance is strictly below the threshold, reporting
`(student_id, 1 / (1 + distance))`. -/
def search {V M : Type} (ops : VecOps V) (db : FaissDB V M) (threshold : ℚ)
    (q : V) (k : ℕ) : List (ℤ × ℚ) :=
  if db.entries.length = 0 then []
  else
    let qn := ops.normalize q
    (indexSearch ops db.entries qn k).filterMap (fun p =>
      if p.2 < db.student_ids.length then
        if p.1 < threshold then some (db.student_ids.getD p.2 0, 1 / (1 + p.1))
        else none
      else none)

/-- Metadata remapping loop of `remove_student_embeddings`:
`for new_idx, old_idx in enumerate(keep_indices): if old_idx in
embeddings_data: new[new_idx] = old[old_idx]`, with `s` the running
`new_idx` counter. -/
def remapMeta {M : Type} (meta : List (ℕ × M)) : List ℕ → ℕ → List (ℕ × M)
  | [], _ => []
  | old :: rest, s =>
    match meta.lookup old with
    | some v => (s, v) :: remapMeta meta rest (s + 1)
    | none => remapMeta meta rest (s + 1)

/-- `FaissVectorDB.remove_student_embeddings`: compute the slots to keep; if
nothing matched, return without saving; otherwise rebuild the index from the
kept slots (reconstructing the stored vectors, preserving order), filter
`student_ids`, remap the metadata to the new slots, and save. `w` is the
save's write outcome. -/
def remove_student_embeddings {V M : Type} [Inhabited V] (db : FaissDB V M)
    (d : DiskState V M) (w : SaveOutcome) (sid : ℤ) :
    FaissDB V M × DiskState V M × Bool :=
  let keep := (List.range db.student_ids.length).filter
    (fun i => db.student_ids.getD i 0 ≠ sid)
  if keep.length = db.student_ids.length then (db, d, true)
  else
    let db' : FaissDB V M :=
      if keep.length > 0 then
        { entries := keep.map (fun i => db.entries.getD i default)
          student_ids := keep.map (fun i => db.student_ids.getD i 0)
          embeddings_data := remapMeta db.embeddings_data keep 0 }
      else createIndex V M
    let sv := save_index db' w d
    (db', sv.1, sv.2)

/-- `FaissVectorDB.get_student_embedding_count`. -/
def get_student_embedding_count {V M : Type} (db : FaissDB V M) (sid : ℤ) : ℕ :=
  db.student_ids.count sid

/-- `FaissVectorDB.get_total_embeddings` (`self.index.ntotal`). -/
def get_total_embeddings {V M : Type} (db : FaissDB V M) : ℕ :=
  db.entries.length

/-- `FaissVectorDB.clear_index`: recreate an empty index and save it. -/
def clear_index {V M : Type} (d : DiskState V M) (w : SaveOutcome) :
    FaissDB V M × DiskState V M × Bool :=
  let sv := save_index (createIndex V M) w d
  (createIndex V M, sv.1, sv.2)

/-- Mutating operations of the vector index, with their disk-write outcomes. -/
inductive IndexOp (V M : Type) where
  | create : IndexOp V M
  | load : IndexOp V M
  | add : SaveOutcome → V → ℤ → Option M → IndexOp V M
  | addBatch : (ℕ → SaveOutcome) → List V → ℤ → Option M → IndexOp V M
  | removeOwner : SaveOutcome → ℤ → IndexOp V M
  | clear : SaveOutcome → IndexOp V M

/-- One step of the index state machine over (in-memory DB, disk). -/
def applyOp {V M : Type} [Inhabited V] (ops : VecOps V)
    (s : FaissDB V M × DiskState V M) (op : IndexOp V M) :
    FaissDB V M × DiskState V M :=
  match op with
  | .create => (createIndex V M, s.2)
  | .load => (loadIndex s.2, s.2)
  | .add ok v sid meta =>
    let r := add_embedding ops s.1 s.2 ok v sid meta
    (r.1, r.2.1)
  | .addBatch wok vs sid meta =>
    let r := add_multiple_embeddings ops wok s.1 s.2 0 vs sid meta
    (r.1, r.2.1)
  | .removeOwner ok sid =>
    let r := remove_student_embeddings s.1 s.2 ok sid
    (r.1, r.2.1)
  | .clear ok =>
    let r := clear_index s.2 ok
    (r.1, r.2.1)

/-- A run of index operations from a starting state. -/
def runOps {V M : Type} [Inhabited V] (ops : VecOps V)
    (s : FaissDB V M × DiskState V M) (l : List (IndexOp V M)) :
    FaissDB V M × DiskState V M :=
  l.foldl (applyOp ops) s

/-- The parallel-structure invariant on the in-memory state: one owner id per
stored vector slot. -/
def DBBalanced {V M : Type} (db : FaissDB V M) : Prop :=
  db.student_ids.length = db.entries.length

/-- The two files, when both readable, hold a vector blob and an owner
sequence of equal length. -/
def DiskBalanced {V M : Type} : DiskState V M → Prop
  | (.good e, .good sm) => sm.1.length = e.length
  | _ => True

/-- A row of the `attendance` table (the columns the pipeline writes;
`confidence` and `camera_id` are nullable in the model `app/models/attendance.py`). -/
structure AttendanceRec where
  student_id : ℤ
  date : ℕ
  time : ℕ
  camera_id : Option ℤ
  confidence : Option ℚ
  status : String
deriving DecidableEq

/-- One entry of `FaceRecognitionTrainer.recognize_face`'s result list, as
consumed by the worker: `student_id` is `None` for an unknown face. -/
structure RecogResult where
  student_id : Option ℤ
  confidence : ℚ
deriving DecidableEq

/-- The dedup query of the worker loop:
`db.query(Attendance).filter(student_id == sid, date == today).first()`. -/
def findByOwnerAndDate (db : List AttendanceRec) (sid : ℤ) (d : ℕ) :
    Option AttendanceRec :=
  db.find? (fun r => r.student_id == sid && r.date == d)

/-- Body of the worker's per-result attendance marking
(`camera_runner.py` lines 71-88): `if sid:` (Python truthiness, so `None`
and `0` are both skipped), then insert a `present` row only when no row for
`(sid, today)` exists. -/
def markIfAbsent (camera_id : ℤ) (today now : ℕ) (db : List AttendanceRec)
    (r : RecogResult) : List AttendanceRec :=
  match r.student_id with
  | none => db
  | some sid =>
    if sid = 0 then db
    else
      match findByOwnerAndDate db sid today with
      | some _ => db
      | none =>
        db ++ [{ student_id := sid, date := today, time := now,
                 camera_id := some camera_id, confidence := some r.confidence,
                 status := "present" }]

/-- Attendance effect of one successful worker cycle: the recognition
results are processed in order against the store. -/
def runAttendanceCycle (camera_id : ℤ) (today now : ℕ)
    (results : List RecogResult) (db : List AttendanceRec) : List AttendanceRec :=
  results.foldl (markIfAbsent camera_id today now) db

/-- Context of one autonomous cycle: source camera, wall-clock `now`, and the
recognition results of the frame. -/
structure CycleCtx where
  camera_id : ℤ
  now : ℕ
  results : List RecogResult
deriving DecidableEq

/-- Attendance effect of a sequence of successful worker cycles on one date. -/
def runCycles (today : ℕ) (cycles : List CycleCtx) (db : List AttendanceRec) :
    List AttendanceRec :=
  cycles.foldl (fun db c => runAttendanceCycle c.camera_id today c.now c.results db) db

/-- Number of attendance rows stored for a given (owner, date) key. -/
def countEvents (db : List AttendanceRec) (sid : ℤ) (d : ℕ) : ℕ :=
  (db.filter (fun r => r.student_id == sid && r.date == d)).length

/-- Payload of the explicit mark-attendance endpoint
(`app/schemas/attendance.py`, `AttendanceCreate`). -/
structure AttendanceCreate where
  student_id : ℤ
  date : ℕ
  time : ℕ
  camera_id : Option ℤ
  confidence : Option ℚ
  status : String
deriving DecidableEq

/-- Key predicate of the endpoint's existence query. -/
def attKey (sid : ℤ) (d : ℕ) (r : AttendanceRec) : Bool :=
  r.student_id == sid && r.date == d

/-- In-place update of the first row matched by `p` (SQLAlchemy `.first()`
followed by field assignments and commit). -/
def updateFirst {α : Type} (p : α → Bool) (f : α → α) : List α → List α
  | [] => []
  | r :: rest => if p r then f r :: rest else r :: updateFirst p f rest

/-- `mark_attendance` endpoint (`api/v1/endpoints/attendance.py` lines
87-118): 404 when the student does not exist; otherwise overwrite
time/camera/confidence/status of the first existing row for
`(student_id, date)`, or insert a new row when none exists. -/
def mark_attendance (students : List ℤ) (db : List AttendanceRec)
    (a : AttendanceCreate) : Except String (List AttendanceRec) :=
  if students.contains a.student_id then
    match db.find? (attKey a.student_id a.date) with
    | some _ =>
      .ok (updateFirst (attKey a.student_id a.date)
        (fun r => { r with time := a.time, camera_id := a.camera_id,
                           confidence := a.confidence, status := a.status }) db)
    | none =>
      .ok (db ++ [{ student_id := a.student_id, date := a.date, time := a.time,
                    camera_id := a.camera_id, confidence := a.confidence,
                    status := a.status }])
  else .error "Student not found"

/-- The `last_result` summary the worker stores after a successful cycle. -/
structure CycleSummary where
  timestamp : ℕ
  recognized : List ℤ
  count : ℕ
deriving DecidableEq

/-- `[r.get('student_id') for r in results if r.get('student_id')]` —
again Python truthiness, so `None` and `0` are dropped. -/
def recognizedIds (results : List RecogResult) : List ℤ :=
  results.filterMap (fun r =>
    match r.student_id with
    | some s => if s = 0 then none else some s
    | none => none)

/-- Mutable per-worker fields touched by the polling loop. -/
structure WorkerRunState where
  error : Option String
  last_result : Option CycleSummary
  running : Bool
deriving DecidableEq

/-- Outcome of the fallible part of one poll cycle: the source failed to
open; the read returned no frame; an exception escaped the
recognition/marking code, carrying the prefix of the frame's recognition
results whose marks were already committed when it escaped (each mark is
committed individually in the source, so rows committed before the
exception stay; the list is empty when recognition itself raised); or a
frame was read and recognized in full. -/
inductive CycleInput where
  | openFail : CycleInput
  | readNone : CycleInput
  | exn : String → List RecogResult → CycleInput
  | frame : List RecogResult → CycleInput
deriving DecidableEq

/-- Whether a cycle outcome is one of the per-cycle failures. -/
def CycleInput.isFail : CycleInput → Bool
  | .openFail => true
  | .readNone => true
  | .exn _ _ => true
  | .frame _ => false

/-- One iteration of `CameraWorker._run`'s while-loop body (lines 48-106):
every failure is recorded in `self.error` and the loop continues; an
exception escaping the marking loop leaves the marks committed before it in
the store and does not update `last_result`; a successful frame marks
attendance, stores a summary and clears the error. The `running` flag is
never touched by the loop. -/
def workerCycle (camera_id : ℤ) (today : ℕ)
    (s : WorkerRunState × List AttendanceRec) (c : ℕ × CycleInput) :
    WorkerRunState × List AttendanceRec :=
  match c.2 with
  | .openFail => ({ s.1 with error := some "Unable to open source" }, s.2)
  | .readNone => ({ s.1 with error := some "Failed to read frame" }, s.2)
  | .exn m processed =>
    ({ s.1 with error := some m },
      runAttendanceCycle camera_id today c.1 processed s.2)
  | .frame results =>
    ({ s.1 with
        error := none
        last_result := some { timestamp := c.1,
                              recognized := recognizedIds results,
                              count := (recognizedIds results).length } },
      runAttendanceCycle camera_id today c.1 results s.2)

/-- A run of consecutive poll cycles, each with its wall-clock time and
outcome. -/
def runWorker (camera_id : ℤ) (today : ℕ) (cycles : List (ℕ × CycleInput))
    (s : WorkerRunState × List AttendanceRec) :
    WorkerRunState × List AttendanceRec :=
  cycles.foldl (workerCycle camera_id today) s

/-- `CameraWorker` as created by `__init__` plus the fields its thread
mutates: note `self.fps = max(0.2, min(fps, 5))`. -/
structure CameraWorker where
  camera_id : ℤ
  source : String
  fps : ℚ
  running : Bool
  error : Option String
  last_result : Option CycleSummary
deriving DecidableEq

/-- Python's builtin `min` on two numbers. -/
def ratMin (a b : ℚ) : ℚ := if a ≤ b then a else b

/-- Python's builtin `max` on two numbers. -/
def ratMax (a b : ℚ) : ℚ := if b ≤ a then a else b

/-- `CameraWorker.__init__(camera_id, source, fps)`:
`self.fps = max(0.2, min(fps, 5))`. -/
def mkWorker (camera_id : ℤ) (source : String) (fps : ℚ) : CameraWorker :=
  { camera_id := camera_id, source := source,
    fps := ratMax (mkRat 1 5) (ratMin fps 5),
    running := false, error := none, last_result := none }

/-- `CameraWorker.start`: spawn the thread and set `running` (no-op when
already running). -/
def workerStart (w : CameraWorker) : CameraWorker :=
  if w.running then w else { w with running := true }

/-- `interval = 1.0 / self.fps if self.fps > 0 else 1.0` from
`CameraWorker._run`. -/
def pollInterval (fps : ℚ) : ℚ :=
  if 0 < fps then 1 / fps else 1

/-- `BackgroundCameraManager`'s camera-to-worker dict (insertion ordered). -/
structure CamManager where
  workers : List (ℤ × CameraWorker)
deriving DecidableEq

/-- Dict assignment `self.workers[camera.id] = worker`. -/
def putWorker (l : List (ℤ × CameraWorker)) (k : ℤ) (w : CameraWorker) :
    List (ℤ × CameraWorker) :=
  if l.any (fun p => p.1 == k) then
    l.map (fun p => if p.1 == k then (k, w) else p)
  else l ++ [(k, w)]

/-- `BackgroundCameraManager.start` (lines 114-122): under the lock, return
the existing worker unchanged when it is running; otherwise create, store
and start a fresh worker. -/
def managerStart (m : CamManager) (camera_id : ℤ) (ip_address : String)
    (fps : ℚ) : CamManager × CameraWorker :=
  match (m.workers.lookup camera_id).bind
      (fun w => if w.running then some w else none) with
  | some w => (m, w)
  | none =>
    let w := workerStart (mkWorker camera_id ip_address fps)
    ({ workers := putWorker m.workers camera_id w }, w)

/-- Result dict of `BackgroundCameraManager.status`: `{'running': False}`
when the camera was never started, otherwise the full snapshot. -/
inductive StatusD where
  | notFound : StatusD
  | info : Bool → Option String → Option CycleSummary → ℚ → ℤ → StatusD
deriving DecidableEq

/-- `BackgroundCameraManager.status` (lines 138-149). The method acquires the
manager's non-reentrant `threading.Lock`; calling it while that lock is
already held blocks forever, modelled as `none`. -/
def managerStatus (m : CamManager) (lockHeld : Bool) (camera_id : ℤ) :
    Option StatusD :=
  if lockHeld then none
  else some (match m.workers.lookup camera_id with
    | none => .notFound
    | some w => .info w.running w.error w.last_result w.fps camera_id)

/-- `BackgroundCameraManager.all_status` (lines 151-153): acquire the lock,
then build `{cid: self.status(cid) for cid in self.workers.keys()}` — each
`self.status` call re-acquires the already-held lock. -/
def managerAllStatus (m : CamManager) (lockHeld : Bool) :
    Option (List (ℤ × StatusD)) :=
  if lockHeld then none
  else (m.workers.map Prod.fst).mapM (fun cid =>
    (managerStatus m true cid).map (fun s => (cid, s)))

/-- Structured content of the messages built by
`FaceRecognitionTrainer.process_student_frames`. -/
inductive ProcMsg where
  | notEnough : ℕ → ℕ → ProcMsg
  | added : ℕ → ProcMsg
  | addFailed : ProcMsg
deriving DecidableEq

/-- Result dict of `process_student_frames`. -/
structure ProcResult where
  success : Bool
  message : ProcMsg
  embeddings_count : ℕ
  valid_frames : Option ℕ
deriving DecidableEq

/-- `FaceRecognitionTrainer.process_student_frames` (lines 25-112): extract
at most one embedding per frame (`extract` models the detector + crop +
embed chain, `none` when the frame is skipped); fail without touching the
index when fewer than `min_faces` embeddings were found; otherwise add the
whole batch via `add_multiple_embeddings`, reporting failure when an add
raised. `wok` gives the outcomes of the batch's saves. -/
def process_student_frames {V M F : Type} (ops : VecOps V) (extract : F → Option V)
    (wok : ℕ → SaveOutcome) (db : FaissDB V M) (d : DiskState V M) (frames : List F)
    (sid : ℤ) (min_faces : ℕ) (meta : Option M) :
    ProcResult × FaissDB V M × DiskState V M :=
  let embeddings := frames.filterMap extract
  if embeddings.length < min_faces then
    ({ success := false, message := .notEnough embeddings.length min_faces,
       embeddings_count := embeddings.length, valid_frames := none }, db, d)
  else
    let r := add_multiple_embeddings ops wok db d 0 embeddings sid meta
    if r.2.2.2 then
      ({ success := true, message := .added embeddings.length,
         embeddings_count := embeddings.length,
         valid_frames := some embeddings.length }, r.1, r.2.1)
    else
      ({ success := false, message := .addFailed,
         embeddings_count := embeddings.length, valid_frames := none }, r.1, r.2.1)

/-- C8: a fully successful persist followed by a load reproduces an index
with identical total count, identical owner sequence in the same order, and
identical search results for any query; loading with either persisted file
missing or unreadable yields a fresh empty index without raising. -/
theorem C8_persist_load_roundtrip {V M : Type} (db : FaissDB V M)
    (d : DiskState V M) (ops : VecOps V) (threshold : ℚ) (q : V) (k : ℕ) :
    (save_index db SaveOutcome.success d).2 = true ∧
    loadIndex (save_index db SaveOutcome.success d).1 = db ∧
    get_total_embeddings (loadIndex (save_index db SaveOutcome.success d).1) =
      get_total_embeddings db ∧
    (loadIndex (save_index db SaveOutcome.success d).1).student_ids =
      db.student_ids ∧
    search ops (loadIndex (save_index db SaveOutcome.success d).1) threshold q k =
      search ops db threshold q k ∧
    loadIndex ((FileState.missing, FileState.missing) : DiskState V M) =
      createIndex V M ∧
    loadIndex ((FileState.corrupt, FileState.corrupt) : DiskState V M) =
      createIndex V M ∧
    (∀ e : List V,
      loadIndex ((FileState.good e, FileState.missing) : DiskState V M) =
        createIndex V M) ∧
    (∀ sm : List ℤ × List (ℕ × M),
      loadIndex ((FileState.corrupt, FileState.good sm) : DiskState V M) =
        createIndex V M) :=
  ⟨rfl, rfl, rfl, rfl, rfl, rfl, rfl, fun _ => rfl, fun _ => rfl⟩

/-- C10: `all_status` re-acquires the manager's non-reentrant lock inside
`status` while already holding it, so it blocks forever (modelled `none`) as
soon as any camera has been started, although `status` itself returns the
snapshot and `all_status` on an empty manager returns the empty map. -/
theorem C10_all_status_deadlock :
    managerStatus (managerStart ⟨[]⟩ 3 "rtsp" 1).1 false 3 =
      some (.info true none none 1 3) ∧
    managerAllStatus (managerStart ⟨[]⟩ 3 "rtsp" 1).1 false = none ∧
    managerAllStatus (⟨[]⟩ : CamManager) false = some [] := by
  decide

theorem runWorker_running (camera_id : ℤ) (today : ℕ)
    (cycles : List (ℕ × CycleInput)) :
    ∀ s : WorkerRunState × List AttendanceRec,
      (runWorker camera_id today cycles s).1.running = s.1.running := by
  induction cycles with
  | nil => intro s; rfl
  | cons c rest ih =>
    intro s
    have hstep : (workerCycle camera_id today s c).1.running = s.1.running := by
      rcases c with ⟨t, inp⟩
      cases inp <;> rfl
    calc (runWorker camera_id today (c :: rest) s).1.running
        = (runWorker camera_id today rest (workerCycle camera_id today s c)).1.running := rfl
      _ = (workerCycle camera_id today s c).1.running := ih _
      _ = s.1.running := hstep

theorem runWorker_error_of_fail (camera_id : ℤ) (today : ℕ) :
    ∀ (cycles : List (ℕ × CycleInput)) (s : WorkerRunState × List AttendanceRec),
      (∀ c ∈ cycles, c.2.isFail = true) → cycles ≠ [] →
      (runWorker camera_id today cycles s).1.error ≠ none := by
  intro cycles
  induction cycles with
  | nil => intro s _ hne; exact absurd rfl hne
  | cons c rest ih =>
    intro s hfail _
    rcases rest with _ | ⟨c2, rest2⟩
    · have hc := hfail c (List.mem_cons_self c [])
      rcases c with ⟨t, inp⟩
      cases inp with
      | openFail => simp [runWorker, workerCycle]
      | readNone => simp [runWorker, workerCycle]
      | exn m processed => simp [runWorker, workerCycle]
      | frame results => simp [CycleInput.isFail] at hc
    · have : runWorker camera_id today (c :: c2 :: rest2) s =
          runWorker camera_id today (c2 :: rest2) (workerCycle camera_id today s c) := rfl
      rw [this]
      exact ih _ (fun x hx => hfail x (List.mem_cons_of_mem c hx)) (by simp)

/-- C6: every per-cycle failure (open failure, empty frame read, or an
exception escaping recognition or the marking loop — possibly after some
marks were committed) is recorded in the worker's error state and the loop
proceeds: after any nonempty run of consecutive failing cycles the worker's
running flag is still true and its `lastError` is non-none. -/
theorem C6_worker_resilience (camera_id : ℤ) (today : ℕ)
    (cycles : List (ℕ × CycleInput)) (w : WorkerRunState)
    (db : List AttendanceRec)
    (hfail : ∀ c ∈ cycles, c.2.isFail = true) (hne : cycles ≠ [])
    (hrun : w.running = true) :
    (runWorker camera_id today cycles (w, db)).1.running = true ∧
    (runWorker camera_id today cycles (w, db)).1.error ≠ none := by
  refine ⟨?_, ?_⟩
  · rw [runWorker_running]; exact hrun
  · exact runWorker_error_of_fail camera_id today cycles (w, db) hfail hne

theorem C6_worker_resilience_witness :
    (runWorker 3 5 [(0, .readNone), (1, .readNone), (2, .readNone)]
      (⟨none, none, true⟩, [])).1.running = true ∧
    (runWorker 3 5 [(0, .readNone), (1, .readNone), (2, .readNone)]
      (⟨none, none, true⟩, [])).1.error ≠ none :=
  C6_worker_resilience 3 5 [(0, .readNone), (1, .readNone), (2, .readNone)]
    ⟨none, none, true⟩ [] (by decide) (by decide) rfl

theorem findByOwnerAndDate_eq_none_iff (db : List AttendanceRec) (sid : ℤ) (d : ℕ) :
    findByOwnerAndDate db sid d = none ↔ countEvents db sid d = 0 := by
  simp [findByOwnerAndDate, countEvents, List.find?_eq_none, List.length_eq_zero,
    List.filter_eq_nil_iff]

theorem countEvents_append (db t : List AttendanceRec) (sid : ℤ) (d : ℕ) :
    countEvents (db ++ t) sid d = countEvents db sid d + countEvents t sid d := by
  simp [countEvents, List.filter_append]

theorem countEvents_single_ne (x : AttendanceRec) (sid : ℤ) (d : ℕ)
    (h : x.student_id ≠ sid) : countEvents [x] sid d = 0 := by
  simp [countEvents, List.filter_cons, h]

theorem mark_count_pos (cam : ℤ) (today now : ℕ) (db : List AttendanceRec)
    (r : RecogResult) (sid : ℤ) (h : 0 < countEvents db sid today) :
    countEvents (markIfAbsent cam today now db r) sid today =
      countEvents db sid today := by
  unfold markIfAbsent
  cases hr : r.student_id with
  | none => rfl
  | some s =>
    by_cases hs : s = 0
    · simp [hs]
    · simp only [if_neg hs]
      cases hf : findByOwnerAndDate db s today with
      | some _ => rfl
      | none =>
        have hz : countEvents db s today = 0 :=
          (findByOwnerAndDate_eq_none_iff db s today).mp hf
        have hne : s ≠ sid := by
          intro he; rw [he] at hz; omega
        rw [countEvents_append, countEvents_single_ne _ _ _ hne]
        omega

theorem mark_count_zero (cam : ℤ) (today now : ℕ) (db : List AttendanceRec)
    (r : RecogResult) (sid : ℤ) (h : countEvents db sid today = 0) :
    countEvents (markIfAbsent cam today now db r) sid today =
      if r.student_id = some sid ∧ sid ≠ 0 then 1 else 0 := by
  unfold markIfAbsent
  cases hr : r.student_id with
  | none => simp [h]
  | some s =>
    dsimp only
    by_cases hs : s = 0
    · subst hs
      have hcond : ¬ (some (0:ℤ) = some sid ∧ sid ≠ 0) := by
        rintro ⟨he, hne⟩; exact hne (Option.some_injective _ he).symm
      rw [if_pos rfl, if_neg hcond]
      exact h
    · rw [if_neg hs]
      by_cases hss : s = sid
      · subst hss
        have hf : findByOwnerAndDate db s today = none :=
          (findByOwnerAndDate_eq_none_iff db s today).mpr h
        rw [hf, if_pos ⟨rfl, hs⟩, countEvents_append, h]
        simp [countEvents, List.filter_cons]
      · have hcond : ¬ (some s = some sid ∧ sid ≠ 0) := by
          rintro ⟨he, _⟩; exact hss (Option.some_injective _ he)
        rw [if_neg hcond]
        cases hf : findByOwnerAndDate db s today with
        | some _ => exact h
        | none =>
          rw [countEvents_append, h, countEvents_single_ne _ _ _ hss]

theorem cycle_count_pos (cam : ℤ) (today now : ℕ) (results : List RecogResult) :
    ∀ db : List AttendanceRec, ∀ sid : ℤ, 0 < countEvents db sid today →
      countEvents (runAttendanceCycle cam today now results db) sid today =
        countEvents db sid today := by
  induction results with
  | nil => intro db sid _; rfl
  | cons r rest ih =>
    intro db sid h
    have hstep := mark_count_pos cam today now db r sid h
    have : runAttendanceCycle cam today now (r :: rest) db =
        runAttendanceCycle cam today now rest (markIfAbsent cam today now db r) := rfl
    rw [this, ih _ sid (by rw [hstep]; exact h), hstep]

theorem cycle_count_hit (cam : ℤ) (today now : ℕ) (results : List RecogResult) :
    ∀ db : List AttendanceRec, ∀ sid : ℤ, countEvents db sid today = 0 → sid ≠ 0 →
      (∃ r ∈ results, r.student_id = some sid) →
      countEvents (runAttendanceCycle cam today now results db) sid today = 1 := by
  induction results with
  | nil => rintro db sid _ _ ⟨r, hr, _⟩; exact absurd hr (List.not_mem_nil r)
  | cons r rest ih =>
    intro db sid h0 hsid hex
    have hcons : runAttendanceCycle cam today now (r :: rest) db =
        runAttendanceCycle cam today now rest (markIfAbsent cam today now db r) := rfl
    by_cases hr : r.student_id = some sid
    · have h1 : countEvents (markIfAbsent cam today now db r) sid today = 1 := by
        rw [mark_count_zero cam today now db r sid h0, if_pos ⟨hr, hsid⟩]
      rw [hcons, cycle_count_pos cam today now rest _ sid (by omega), h1]
    · have h0' : countEvents (markIfAbsent cam today now db r) sid today = 0 := by
        rw [mark_count_zero cam today now db r sid h0,
          if_neg (fun hc => hr hc.1)]
      rcases hex with ⟨r', hr', he⟩
      rcases List.mem_cons.mp hr' with h | h
      · exact absurd (h ▸ he) hr
      · rw [hcons]; exact ih _ sid h0' hsid ⟨r', h, he⟩

theorem cycles_count_pos (today : ℕ) (cycles : List CycleCtx) :
    ∀ db : List AttendanceRec, ∀ sid : ℤ, 0 < countEvents db sid today →
      countEvents (runCycles today cycles db) sid today =
        countEvents db sid today := by
  induction cycles with
  | nil => intro db sid _; rfl
  | cons c rest ih =>
    intro db sid h
    have hstep := cycle_count_pos c.camera_id today c.now c.results db sid h
    have hcons : runCycles today (c :: rest) db =
        runCycles today rest (runAttendanceCycle c.camera_id today c.now c.results db) := rfl
    rw [hcons, ih _ sid (by rw [hstep]; exact h), hstep]

/-- Shape of the attendance rows the autonomous worker inserts for a cycle. -/
def CreatedByCycle (today : ℕ) (c : CycleCtx) (x : AttendanceRec) : Prop :=
  x.date = today ∧ x.status = "present" ∧ x.time = c.now ∧
  x.camera_id = some c.camera_id ∧ x.student_id ≠ 0 ∧
  ∃ r ∈ c.results, r.student_id = some x.student_id ∧ x.confidence = some r.confidence

theorem mark_append (cam : ℤ) (today now : ℕ) (db : List AttendanceRec)
    (r : RecogResult) :
    ∃ t, markIfAbsent cam today now db r = db ++ t ∧
      ∀ x ∈ t, x.date = today ∧ x.status = "present" ∧ x.time = now ∧
        x.camera_id = some cam ∧ x.student_id ≠ 0 ∧
        r.student_id = some x.student_id ∧ x.confidence = some r.confidence := by
  unfold markIfAbsent
  cases hr : r.student_id with
  | none => exact ⟨[], by simp⟩
  | some s =>
    by_cases hs : s = 0
    · exact ⟨[], by simp [hs]⟩
    · simp only [if_neg hs]
      cases findByOwnerAndDate db s today with
      | some _ => exact ⟨[], by simp⟩
      | none =>
        refine ⟨[{ student_id := s, date := today, time := now,
                   camera_id := some cam, confidence := some r.confidence,
                   status := "present" }], rfl, ?_⟩
        intro x hx
        rw [List.mem_singleton] at hx
        subst hx
        exact ⟨rfl, rfl, rfl, rfl, hs, rfl, rfl⟩

theorem cycle_append (cam : ℤ) (today now : ℕ) (results : List RecogResult) :
    ∀ db : List AttendanceRec,
      ∃ t, runAttendanceCycle cam today now results db = db ++ t ∧
        ∀ x ∈ t, CreatedByCycle today ⟨cam, now, results⟩ x := by
  induction results with
  | nil => intro db; exact ⟨[], by simp [runAttendanceCycle]⟩
  | cons r rest ih =>
    intro db
    obtain ⟨t1, ht1, hs1⟩ := mark_append cam today now db r
    obtain ⟨t2, ht2, hs2⟩ := ih (markIfAbsent cam today now db r)
    refine ⟨t1 ++ t2, ?_, ?_⟩
    · have hcons : runAttendanceCycle cam today now (r :: rest) db =
          runAttendanceCycle cam today now rest (markIfAbsent cam today now db r) := rfl
      rw [hcons, ht2, ht1, List.append_assoc]
    · intro x hx
      rcases List.mem_append.mp hx with h | h
      · obtain ⟨h1, h2, h3, h4, h5, h6, h7⟩ := hs1 x h
        exact ⟨h1, h2, h3, h4, h5, r, List.mem_cons_self r rest, h6, h7⟩
      · obtain ⟨h1, h2, h3, h4, h5, r', hr', h6⟩ := hs2 x h
        exact ⟨h1, h2, h3, h4, h5, r', List.mem_cons_of_mem r hr', h6⟩

theorem cycles_append (today : ℕ) (cycles : List CycleCtx) :
    ∀ db : List AttendanceRec,
      ∃ t, runCycles today cycles db = db ++ t ∧
        ∀ x ∈ t, ∃ c ∈ cycles, CreatedByCycle today c x := by
  induction cycles with
  | nil => intro db; exact ⟨[], by simp [runCycles]⟩
  | cons c rest ih =>
    intro db
    obtain ⟨t1, ht1, hs1⟩ := cycle_append c.camera_id today c.now c.results db
    obtain ⟨t2, ht2, hs2⟩ := ih (runAttendanceCycle c.camera_id today c.now c.results db)
    refine ⟨t1 ++ t2, ?_, ?_⟩
    · have hcons : runCycles today (c :: rest) db =
          runCycles today rest (runAttendanceCycle c.camera_id today c.now c.results db) := rfl
      rw [hcons, ht2, ht1, List.append_assoc]
    · intro x hx
      rcases List.mem_append.mp hx with h | h
      · exact ⟨c, List.mem_cons_self c rest, hs1 x h⟩
      · obtain ⟨c', hc', hcx⟩ := hs2 x h
        exact ⟨c', List.mem_cons_of_mem c hc', hcx⟩

/-- C1 (amended): during autonomous cycles an attendance event is created
for a recognized owner with a nonzero id only when none exists for
(owner, date); existing rows are never modified (the store only grows by
appended `present` rows of the cycles' shape), and after any nonempty
sequence of cycles that each recognize the same nonzero owner on the same
date, exactly one event exists for that (owner, date). -/
theorem C1_autonomous_dedup (today : ℕ) (sid : ℤ) (cycles : List CycleCtx)
    (db : List AttendanceRec) (hsid : sid ≠ 0)
    (h0 : countEvents db sid today = 0)
    (hrec : ∀ c ∈ cycles, ∃ r ∈ c.results, r.student_id = some sid)
    (hne : cycles ≠ []) :
    countEvents (runCycles today cycles db) sid today = 1 ∧
    ∃ t, runCycles today cycles db = db ++ t ∧
      ∀ x ∈ t, ∃ c ∈ cycles, CreatedByCycle today c x := by
  constructor
  · rcases cycles with _ | ⟨c, rest⟩
    · exact absurd rfl hne
    · have hcons : runCycles today (c :: rest) db =
          runCycles today rest (runAttendanceCycle c.camera_id today c.now c.results db) := rfl
      have h1 : countEvents (runAttendanceCycle c.camera_id today c.now c.results db)
          sid today = 1 :=
        cycle_count_hit c.camera_id today c.now c.results db sid h0 hsid
          (hrec c (List.mem_cons_self c rest))
      rw [hcons, cycles_count_pos today rest _ sid (by omega), h1]
  · exact cycles_append today cycles db

def exCycles : List CycleCtx :=
  [{ camera_id := 2, now := 10, results := [{ student_id := some 7, confidence := 1 }] },
   { camera_id := 4, now := 11, results := [{ student_id := some 7, confidence := 2 }] }]

theorem C1_autonomous_dedup_witness :
    countEvents (runCycles 5 exCycles []) 7 5 = 1 ∧
    ∃ t, runCycles 5 exCycles [] = [] ++ t ∧
      ∀ x ∈ t, ∃ c ∈ exCycles, CreatedByCycle 5 c x :=
  C1_autonomous_dedup 5 7 exCycles []
    (by decide) rfl (by decide) (by decide)

/-- C1 fails as stated: a recognized owner whose id is `0` is skipped by the
worker's Python truthiness check `if sid:`, so after a cycle that recognizes
owner 0 on a date with no existing event, zero events (not exactly one)
exist for (0, date). -/
theorem C1_autonomous_dedup_counterexample :
    (∀ c ∈ [({ camera_id := 7, now := 3,
               results := [{ student_id := some 0, confidence := 1 }] } : CycleCtx)],
      ∃ r ∈ c.results, r.student_id = some (0:ℤ)) ∧
    countEvents ([] : List AttendanceRec) 0 5 = 0 ∧
    countEvents (runCycles 5 [{ camera_id := 7, now := 3,
                                results := [{ student_id := some 0, confidence := 1 }] }]
      []) 0 5 = 0 := by
  refine ⟨by decide, rfl, rfl⟩

/-- Row built by `Attendance(**attendance.dict())`. -/
def attFromCreate (a : AttendanceCreate) : AttendanceRec :=
  { student_id := a.student_id, date := a.date, time := a.time,
    camera_id := a.camera_id, confidence := a.confidence, status := a.status }

/-- Field update applied by the endpoint to an existing row. -/
def updRow (a : AttendanceCreate) (r : AttendanceRec) : AttendanceRec :=
  { r with time := a.time, camera_id := a.camera_id,
           confidence := a.confidence, status := a.status }

/-- Number of stored rows for an (owner, date) key, endpoint's view. -/
def countKey (db : List AttendanceRec) (sid : ℤ) (d : ℕ) : ℕ :=
  (db.filter (attKey sid d)).length

theorem updateFirst_length {α : Type} (p : α → Bool) (f : α → α) :
    ∀ l : List α, (updateFirst p f l).length = l.length := by
  intro l
  induction l with
  | nil => rfl
  | cons r rest ih =>
    unfold updateFirst
    by_cases hp : p r = true
    · rw [if_pos hp]; simp
    · rw [if_neg hp]; simp [ih]

theorem updateFirst_filter_not {α : Type} (p : α → Bool) (f : α → α)
    (hpf : ∀ x, p x = true → p (f x) = true) :
    ∀ l : List α, (updateFirst p f l).filter (fun x => !p x) =
      l.filter (fun x => !p x) := by
  intro l
  induction l with
  | nil => rfl
  | cons r rest ih =>
    unfold updateFirst
    by_cases hp : p r = true
    · rw [if_pos hp, List.filter_cons, List.filter_cons]
      simp [hp, hpf r hp]
    · rw [if_neg hp, List.filter_cons, List.filter_cons]
      simp only [Bool.not_eq_true] at hp
      simp [hp, ih]

theorem updateFirst_countP {α : Type} (p : α → Bool) (f : α → α)
    (hpf : ∀ x, p x = true → p (f x) = true) :
    ∀ l : List α, ((updateFirst p f l).filter p).length = (l.filter p).length := by
  intro l
  induction l with
  | nil => rfl
  | cons r rest ih =>
    unfold updateFirst
    by_cases hp : p r = true
    · rw [if_pos hp, List.filter_cons, List.filter_cons]
      simp [hp, hpf r hp]
    · rw [if_neg hp, List.filter_cons, List.filter_cons]
      simp only [Bool.not_eq_true] at hp
      simp [hp, ih]

theorem updateFirst_all_key {α : Type} (p : α → Bool) (f : α → α) :
    ∀ l : List α, (l.filter p).length = 1 →
      ∀ x ∈ updateFirst p f l, p x = true → ∃ y, p y = true ∧ x = f y := by
  intro l
  induction l with
  | nil => intro h; simp at h
  | cons r rest ih =>
    intro hc x hx hpx
    by_cases hp : p r = true
    · rw [List.filter_cons, if_pos hp] at hc
      simp only [List.length_cons] at hc
      have hz : (rest.filter p).length = 0 := by omega
      have hrest : ∀ z ∈ rest, ¬ p z = true := by
        intro z hzm hzz
        have : z ∈ rest.filter p := List.mem_filter.mpr ⟨hzm, hzz⟩
        rw [List.length_eq_zero.mp hz] at this
        exact absurd this (List.not_mem_nil z)
      unfold updateFirst at hx
      rw [if_pos hp] at hx
      rcases List.mem_cons.mp hx with h | h
      · exact ⟨r, hp, h⟩
      · exact absurd hpx (hrest x h)
    · rw [List.filter_cons, if_neg hp] at hc
      unfold updateFirst at hx
      rw [if_neg hp] at hx
      rcases List.mem_cons.mp hx with h | h
      · subst h; exact absurd hpx hp
      · exact ih hc x h hpx

theorem attKey_updRow (a : AttendanceCreate) (x : AttendanceRec)
    (h : attKey a.student_id a.date x = true) :
    attKey a.student_id a.date (updRow a x) = true := by
  simpa [attKey, updRow] using h

theorem updRow_of_key (a : AttendanceCreate) (y : AttendanceRec)
    (h : attKey a.student_id a.date y = true) :
    updRow a y = attFromCreate a := by
  simp only [attKey, Bool.and_eq_true, beq_iff_eq] at h
  cases y
  simp_all [attFromCreate, updRow]

theorem mark_attendance_updRow (students : List ℤ) (db : List AttendanceRec)
    (a : AttendanceCreate) :
    mark_attendance students db a =
      (if students.contains a.student_id then
        match db.find? (attKey a.student_id a.date) with
        | some _ => .ok (updateFirst (attKey a.student_id a.date) (updRow a) db)
        | none => .ok (db ++ [attFromCreate a])
      else .error "Student not found") := rfl

/-- C3: the explicit mark-attendance endpoint upserts — when a row exists for
(owner, date) (and the store holds a single row for that key), the row's
time, camera, confidence and status are overwritten with the supplied values
and no second row is created; when no row exists, exactly one new row is
appended. -/
theorem C3_explicit_upsert (students : List ℤ) (db : List AttendanceRec)
    (a : AttendanceCreate) (hstud : students.contains a.student_id = true) :
    (countKey db a.student_id a.date = 0 →
      mark_attendance students db a = .ok (db ++ [attFromCreate a])) ∧
    (countKey db a.student_id a.date = 1 →
      ∃ db', mark_attendance students db a = .ok db' ∧
        db'.length = db.length ∧
        countKey db' a.student_id a.date = 1 ∧
        (∀ x ∈ db', attKey a.student_id a.date x = true → x = attFromCreate a) ∧
        db'.filter (fun x => !(attKey a.student_id a.date x)) =
          db.filter (fun x => !(attKey a.student_id a.date x))) := by
  constructor
  · intro h0
    have hf : db.find? (attKey a.student_id a.date) = none := by
      rw [List.find?_eq_none]
      intro x hx hpx
      have hmem : x ∈ db.filter (attKey a.student_id a.date) :=
        List.mem_filter.mpr ⟨hx, hpx⟩
      unfold countKey at h0
      rw [List.length_eq_zero.mp h0] at hmem
      exact absurd hmem (List.not_mem_nil x)
    rw [mark_attendance_updRow, if_pos hstud, hf]
  · intro h1
    have hex : ∃ x ∈ db, attKey a.student_id a.date x = true := by
      unfold countKey at h1
      have hne : db.filter (attKey a.student_id a.date) ≠ [] := by
        intro he
        rw [he] at h1
        simp at h1
      rcases List.exists_mem_of_ne_nil _ hne with ⟨x, hx⟩
      exact ⟨x, (List.mem_filter.mp hx).1, (List.mem_filter.mp hx).2⟩
    have hf : (db.find? (attKey a.student_id a.date)).isSome := by
      rw [List.find?_isSome]
      exact hex
    obtain ⟨y0, hy0⟩ := Option.isSome_iff_exists.mp hf
    refine ⟨updateFirst (attKey a.student_id a.date) (updRow a) db,
      ?_, ?_, ?_, ?_, ?_⟩
    · rw [mark_attendance_updRow, if_pos hstud, hy0]
    · exact updateFirst_length _ _ db
    · unfold countKey
      unfold countKey at h1
      rw [updateFirst_countP _ _ (attKey_updRow a) db]
      exact h1
    · intro x hx hpx
      obtain ⟨y, hpy, hxy⟩ :=
        updateFirst_all_key (attKey a.student_id a.date) (updRow a) db h1 x hx hpx
      rw [hxy]
      exact updRow_of_key a y hpy
    · exact updateFirst_filter_not _ _ (attKey_updRow a) db

def exDb3 : List AttendanceRec :=
  [{ student_id := 1, date := 5, time := 0, camera_id := none,
     confidence := none, status := "present" }]

def exCreate : AttendanceCreate :=
  { student_id := 1, date := 5, time := 9, camera_id := some 2,
    confidence := some 1, status := "late" }

theorem C3_explicit_upsert_witness :
    ∃ db', mark_attendance [1] exDb3 exCreate = .ok db' ∧
      db'.length = exDb3.length ∧
      countKey db' exCreate.student_id exCreate.date = 1 ∧
      (∀ x ∈ db', attKey exCreate.student_id exCreate.date x = true →
        x = attFromCreate exCreate) ∧
      db'.filter (fun x => !(attKey exCreate.student_id exCreate.date x)) =
        exDb3.filter (fun x => !(attKey exCreate.student_id exCreate.date x)) :=
  (C3_explicit_upsert [1] exDb3 exCreate (by decide)).2 (by decide)

theorem lookup_map_replace (k : ℤ) (w : CameraWorker) :
    ∀ l : List (ℤ × CameraWorker), l.any (fun p => p.1 == k) = true →
      (l.map (fun p => if p.1 == k then (k, w) else p)).lookup k = some w := by
  intro l
  induction l with
  | nil => intro h; simp at h
  | cons p rest ih =>
    intro h
    rw [List.map_cons]
    by_cases hp : p.1 = k
    · have hhead : (if p.1 == k then ((k, w) : ℤ × CameraWorker) else p) = (k, w) := by
        simp [hp]
      rw [hhead, List.lookup_cons]
      simp
    · have hpk : (p.1 == k) = false := by simp [hp]
      have hkp : (k == p.1) = false := by simp [Ne.symm hp]
      have hrest : rest.any (fun p => p.1 == k) = true := by
        simpa [List.any_cons, hpk] using h
      have hhead : (if p.1 == k then ((k, w) : ℤ × CameraWorker) else p) = p := by
        simp [hpk]
      rw [hhead]
      rcases p with ⟨pk, pw⟩
      rw [List.lookup_cons]
      simp only at hkp
      rw [hkp]
      exact ih hrest

theorem lookup_append_single (k : ℤ) (w : CameraWorker) :
    ∀ l : List (ℤ × CameraWorker), l.any (fun p => p.1 == k) = false →
      (l ++ [(k, w)]).lookup k = some w := by
  intro l
  induction l with
  | nil => intro _; simp [List.lookup_cons]
  | cons p rest ih =>
    intro h
    rw [List.any_cons] at h
    have hpk : (p.1 == k) = false := by
      revert h; cases p.1 == k <;> simp
    have hrest : rest.any (fun p => p.1 == k) = false := by
      revert h; cases rest.any (fun p => p.1 == k) <;> simp
    have hkp : (k == p.1) = false := by
      simp only [beq_eq_false_iff_ne, ne_eq] at hpk ⊢
      exact fun he => hpk he.symm
    rcases p with ⟨pk, pw⟩
    rw [List.cons_append, List.lookup_cons]
    simp only at hkp
    rw [hkp]
    exact ih hrest

theorem lookup_putWorker_self (l : List (ℤ × CameraWorker)) (k : ℤ)
    (w : CameraWorker) : (putWorker l k w).lookup k = some w := by
  unfold putWorker
  by_cases h : l.any (fun p => p.1 == k) = true
  · rw [if_pos h]
    exact lookup_map_replace k w l h
  · rw [if_neg h]
    exact lookup_append_single k w l (by revert h; cases l.any (fun p => p.1 == k) <;> simp)

theorem keys_map_replace (k : ℤ) (w : CameraWorker)
    (l : List (ℤ × CameraWorker)) :
    (l.map (fun p => if p.1 == k then (k, w) else p)).map Prod.fst =
      l.map Prod.fst := by
  rw [List.map_map]
  apply List.map_congr_left
  intro p _
  by_cases h : p.1 = k
  · simp [h]
  · simp [h]

theorem nodup_putWorker (l : List (ℤ × CameraWorker)) (k : ℤ)
    (w : CameraWorker) (h : (l.map Prod.fst).Nodup) :
    ((putWorker l k w).map Prod.fst).Nodup := by
  unfold putWorker
  by_cases hany : l.any (fun p => p.1 == k) = true
  · rw [if_pos hany, keys_map_replace]
    exact h
  · rw [if_neg hany, List.map_append]
    have hnot : k ∉ l.map Prod.fst := by
      intro hk
      rcases List.mem_map.mp hk with ⟨p, hp, hpk⟩
      exact hany (List.any_eq_true.mpr ⟨p, hp, by simp [hpk]⟩)
    simp [List.nodup_append, h, hnot]

theorem clamp_lb (fps : ℚ) : mkRat 1 5 ≤ ratMax (mkRat 1 5) (ratMin fps 5) := by
  unfold ratMax
  by_cases h : ratMin fps 5 ≤ mkRat 1 5
  · rw [if_pos h]
  · rw [if_neg h]
    exact le_of_not_le h

theorem clamp_ub (fps : ℚ) : ratMax (mkRat 1 5) (ratMin fps 5) ≤ 5 := by
  unfold ratMax ratMin
  by_cases hm : fps ≤ 5
  · rw [if_pos hm]
    by_cases h : fps ≤ mkRat 1 5
    · rw [if_pos h]
      norm_num [Rat.mkRat_eq_div]
    · rw [if_neg h]
      exact hm
  · rw [if_neg hm]
    by_cases h : (5:ℚ) ≤ mkRat 1 5
    · rw [if_pos h]
      norm_num [Rat.mkRat_eq_div]
    · rw [if_neg h]

theorem clamp_pos (fps : ℚ) : 0 < ratMax (mkRat 1 5) (ratMin fps 5) :=
  lt_of_lt_of_le (by norm_num [Rat.mkRat_eq_div]) (clamp_lb fps)

theorem workerStart_mkWorker_fps (camera_id : ℤ) (ip : String) (fps : ℚ) :
    (workerStart (mkWorker camera_id ip fps)).fps =
      ratMax (mkRat 1 5) (ratMin fps 5) := by
  simp [workerStart, mkWorker]

theorem workerStart_mkWorker_running (camera_id : ℤ) (ip : String) (fps : ℚ) :
    (workerStart (mkWorker camera_id ip fps)).running = true := by
  simp [workerStart, mkWorker]

theorem pollInterval_clamp (fps : ℚ) :
    pollInterval (ratMax (mkRat 1 5) (ratMin fps 5)) =
      1 / ratMax (mkRat 1 5) (ratMin fps 5) := by
  unfold pollInterval
  rw [if_pos (clamp_pos fps)]

/-- C5: `start` is idempotent — while a worker for the camera is running it
is returned unchanged (same fps, manager untouched); otherwise exactly one
fresh running worker is stored for the camera, its fps clamped into
[0.2, 5] with poll interval `1/fps`; the camera-to-worker map keeps at most
one worker per camera. -/
theorem C5_start_idempotent_clamped (m : CamManager) (camera_id : ℤ)
    (ip : String) (fps : ℚ) (hnd : (m.workers.map Prod.fst).Nodup) :
    (∀ w, m.workers.lookup camera_id = some w → w.running = true →
      managerStart m camera_id ip fps = (m, w)) ∧
    ((m.workers.lookup camera_id).elim True (fun w => w.running = false) →
      (managerStart m camera_id ip fps).2.fps = ratMax (mkRat 1 5) (ratMin fps 5) ∧
      mkRat 1 5 ≤ (managerStart m camera_id ip fps).2.fps ∧
      (managerStart m camera_id ip fps).2.fps ≤ 5 ∧
      pollInterval ((managerStart m camera_id ip fps).2.fps) =
        1 / (managerStart m camera_id ip fps).2.fps ∧
      (managerStart m camera_id ip fps).2.running = true ∧
      (managerStart m camera_id ip fps).1.workers.lookup camera_id =
        some (managerStart m camera_id ip fps).2) ∧
    ((managerStart m camera_id ip fps).1.workers.map Prod.fst).Nodup := by
  cases hl : m.workers.lookup camera_id with
  | some w =>
    by_cases hr : w.running = true
    · have hms : managerStart m camera_id ip fps = (m, w) := by
        unfold managerStart
        rw [hl]
        simp [hr]
      refine ⟨?_, ?_, ?_⟩
      · intro w' hw' _
        rw [hms, Option.some_injective _ hw']
      · intro habs
        simp only [Option.elim] at habs
        rw [hr] at habs
        exact absurd habs (by simp)
      · rw [hms]
        exact hnd
    · have hms : managerStart m camera_id ip fps =
          ({ workers := putWorker m.workers camera_id
              (workerStart (mkWorker camera_id ip fps)) },
            workerStart (mkWorker camera_id ip fps)) := by
        unfold managerStart
        rw [hl]
        simp [hr]
      refine ⟨?_, ?_, ?_⟩
      · intro w' hw' hw'r
        rw [← Option.some_injective _ hw'] at hw'r
        exact absurd hw'r hr
      · intro _
        rw [hms]
        simp only [workerStart_mkWorker_fps, workerStart_mkWorker_running]
        exact ⟨trivial, clamp_lb fps, clamp_ub fps, pollInterval_clamp fps, trivial,
          lookup_putWorker_self m.workers camera_id _⟩
      · rw [hms]
        exact nodup_putWorker m.workers camera_id _ hnd
  | none =>
    have hms : managerStart m camera_id ip fps =
        ({ workers := putWorker m.workers camera_id
            (workerStart (mkWorker camera_id ip fps)) },
          workerStart (mkWorker camera_id ip fps)) := by
      unfold managerStart
      rw [hl]
      rfl
    refine ⟨?_, ?_, ?_⟩
    · intro w' hw' _
      exact absurd hw' (by simp)
    · intro _
      rw [hms]
      simp only [workerStart_mkWorker_fps, workerStart_mkWorker_running]
      exact ⟨trivial, clamp_lb fps, clamp_ub fps, pollInterval_clamp fps, trivial,
        lookup_putWorker_self m.workers camera_id _⟩
    · rw [hms]
      exact nodup_putWorker m.workers camera_id _ hnd

theorem C5_start_idempotent_clamped_witness :
    managerStart (managerStart ⟨[]⟩ 3 "rtsp" 1).1 3 "rtsp" 10 =
      ((managerStart ⟨[]⟩ 3 "rtsp" 1).1, (managerStart ⟨[]⟩ 3 "rtsp" 1).2) :=
  (C5_start_idempotent_clamped (managerStart ⟨[]⟩ 3 "rtsp" 1).1 3 "rtsp" 10
      (by decide)).1
    (managerStart ⟨[]⟩ 3 "rtsp" 1).2 (by decide) (by decide)

theorem save_index_balanced {V M : Type} (db : FaissDB V M)
    (d : DiskState V M) (hdb : DBBalanced db) :
    DiskBalanced (save_index db SaveOutcome.success d).1 := by
  simpa [save_index, DiskBalanced] using hdb

theorem add_embedding_fst {V M : Type} (ops : VecOps V) (db : FaissDB V M)
    (d : DiskState V M) (w : SaveOutcome) (emb : V) (sid : ℤ) (meta : Option M) :
    (add_embedding ops db d w emb sid meta).1 =
      { entries := db.entries ++ [ops.normalize emb]
        student_ids := db.student_ids ++ [sid]
        embeddings_data :=
          match meta with
          | some m => dictInsert db.embeddings_data db.student_ids.length m
          | none => db.embeddings_data } := rfl

theorem add_embedding_disk {V M : Type} (ops : VecOps V) (db : FaissDB V M)
    (d : DiskState V M) (w : SaveOutcome) (emb : V) (sid : ℤ) (meta : Option M) :
    (add_embedding ops db d w emb sid meta).2.1 =
      (save_index (add_embedding ops db d w emb sid meta).1 w d).1 := rfl

theorem add_embedding_balanced {V M : Type} (ops : VecOps V) (db : FaissDB V M)
    (d : DiskState V M) (emb : V) (sid : ℤ) (meta : Option M)
    (hdb : DBBalanced db) :
    DBBalanced (add_embedding ops db d SaveOutcome.success emb sid meta).1 ∧
    DiskBalanced (add_embedding ops db d SaveOutcome.success emb sid meta).2.1 := by
  have hb : DBBalanced (add_embedding ops db d SaveOutcome.success emb sid meta).1 := by
    rw [add_embedding_fst]
    simp only [DBBalanced] at hdb ⊢
    simp [hdb]
  refine ⟨hb, ?_⟩
  rw [add_embedding_disk]
  exact save_index_balanced _ _ hb

theorem add_multiple_balanced {V M : Type} (ops : VecOps V) (wok : ℕ → SaveOutcome)
    (sid : ℤ) (meta : Option M) (hwok : ∀ n, wok n = SaveOutcome.success) :
    ∀ (embs : List V) (db : FaissDB V M) (d : DiskState V M) (n : ℕ),
      DBBalanced db → DiskBalanced d →
      DBBalanced (add_multiple_embeddings ops wok db d n embs sid meta).1 ∧
      DiskBalanced (add_multiple_embeddings ops wok db d n embs sid meta).2.1 := by
  intro embs
  induction embs with
  | nil => intro db d n h1 h2; exact ⟨h1, h2⟩
  | cons e rest ih =>
    intro db d n h1 h2
    have hflag : (add_embedding ops db d (wok n) e sid meta).2.2.1 = true := by
      rw [hwok n]
      rfl
    have hstep : add_multiple_embeddings ops wok db d n (e :: rest) sid meta =
        add_multiple_embeddings ops wok (add_embedding ops db d (wok n) e sid meta).1
          (add_embedding ops db d (wok n) e sid meta).2.1 (n + 1) rest sid meta := by
      simp only [add_multiple_embeddings, hflag, if_true]
    rw [hstep]
    obtain ⟨hb, hdk⟩ : DBBalanced (add_embedding ops db d (wok n) e sid meta).1 ∧
        DiskBalanced (add_embedding ops db d (wok n) e sid meta).2.1 := by
      rw [hwok n]
      exact add_embedding_balanced ops db d e sid meta h1
    exact ih _ _ _ hb hdk

theorem loadIndex_balanced {V M : Type} (d : DiskState V M)
    (hd : DiskBalanced d) : DBBalanced (loadIndex d) := by
  obtain ⟨f1, f2⟩ := d
  cases f1 with
  | good e =>
    cases f2 with
    | good sm => exact hd
    | missing => rfl
    | corrupt => rfl
  | missing => cases f2 <;> rfl
  | corrupt => cases f2 <;> rfl

theorem remove_noop_eq {V M : Type} [Inhabited V] (db : FaissDB V M)
    (d : DiskState V M) (w : SaveOutcome) (sid : ℤ)
    (h : ((List.range db.student_ids.length).filter
        (fun i => db.student_ids.getD i 0 ≠ sid)).length =
      db.student_ids.length) :
    remove_student_embeddings db d w sid = (db, d, true) := by
  simp only [remove_student_embeddings]
  rw [if_pos h]

theorem remove_rebuild_eq {V M : Type} [Inhabited V] (db : FaissDB V M)
    (d : DiskState V M) (w : SaveOutcome) (sid : ℤ)
    (hne : ¬ ((List.range db.student_ids.length).filter
        (fun i => db.student_ids.getD i 0 ≠ sid)).length =
      db.student_ids.length)
    (hpos : 0 < ((List.range db.student_ids.length).filter
        (fun i => db.student_ids.getD i 0 ≠ sid)).length) :
    remove_student_embeddings db d w sid =
      ({ entries := ((List.range db.student_ids.length).filter
            (fun i => db.student_ids.getD i 0 ≠ sid)).map
            (fun i => db.entries.getD i default)
         student_ids := ((List.range db.student_ids.length).filter
            (fun i => db.student_ids.getD i 0 ≠ sid)).map
            (fun i => db.student_ids.getD i 0)
         embeddings_data := remapMeta db.embeddings_data
            ((List.range db.student_ids.length).filter
              (fun i => db.student_ids.getD i 0 ≠ sid)) 0 },
        (save_index
          ({ entries := ((List.range db.student_ids.length).filter
              (fun i => db.student_ids.getD i 0 ≠ sid)).map
              (fun i => db.entries.getD i default)
             student_ids := ((List.range db.student_ids.length).filter
              (fun i => db.student_ids.getD i 0 ≠ sid)).map
              (fun i => db.student_ids.getD i 0)
             embeddings_data := remapMeta db.embeddings_data
              ((List.range db.student_ids.length).filter
                (fun i => db.student_ids.getD i 0 ≠ sid)) 0 } : FaissDB V M)
          w d).1,
        (save_index
          ({ entries := ((List.range db.student_ids.length).filter
              (fun i => db.student_ids.getD i 0 ≠ sid)).map
              (fun i => db.entries.getD i default)
             student_ids := ((List.range db.student_ids.length).filter
              (fun i => db.student_ids.getD i 0 ≠ sid)).map
              (fun i => db.student_ids.getD i 0)
             embeddings_data := remapMeta db.embeddings_data
              ((List.range db.student_ids.length).filter
                (fun i => db.student_ids.getD i 0 ≠ sid)) 0 } : FaissDB V M)
          w d).2) := by
  simp only [remove_student_embeddings]
  rw [if_neg hne, if_pos hpos]

theorem remove_clear_eq {V M : Type} [Inhabited V] (db : FaissDB V M)
    (d : DiskState V M) (w : SaveOutcome) (sid : ℤ)
    (hne : ¬ ((List.range db.student_ids.length).filter
        (fun i => db.student_ids.getD i 0 ≠ sid)).length =
      db.student_ids.length)
    (hz : ((List.range db.student_ids.length).filter
        (fun i => db.student_ids.getD i 0 ≠ sid)).length = 0) :
    remove_student_embeddings db d w sid =
      (createIndex V M, (save_index (createIndex V M) w d).1,
        (save_index (createIndex V M) w d).2) := by
  simp only [remove_student_embeddings]
  rw [if_neg hne, if_neg (by omega)]

theorem remove_balanced {V M : Type} [Inhabited V] (db : FaissDB V M)
    (d : DiskState V M) (sid : ℤ)
    (hdb : DBBalanced db) (hd : DiskBalanced d) :
    DBBalanced (remove_student_embeddings db d SaveOutcome.success sid).1 ∧
    DiskBalanced (remove_student_embeddings db d SaveOutcome.success sid).2.1 := by
  by_cases hk : ((List.range db.student_ids.length).filter
      (fun i => db.student_ids.getD i 0 ≠ sid)).length = db.student_ids.length
  · rw [remove_noop_eq db d SaveOutcome.success sid hk]
    exact ⟨hdb, hd⟩
  · by_cases hp : ((List.range db.student_ids.length).filter
        (fun i => db.student_ids.getD i 0 ≠ sid)).length > 0
    · rw [remove_rebuild_eq db d SaveOutcome.success sid hk hp]
      refine ⟨by simp [DBBalanced], ?_⟩
      exact save_index_balanced _ d (by simp [DBBalanced])
    · have hz : ((List.range db.student_ids.length).filter
          (fun i => db.student_ids.getD i 0 ≠ sid)).length = 0 := by omega
      rw [remove_clear_eq db d SaveOutcome.success sid hk hz]
      refine ⟨rfl, ?_⟩
      exact save_index_balanced _ d rfl

theorem clear_balanced {V M : Type} (d : DiskState V M) :
    DBBalanced (clear_index (V := V) (M := M) d SaveOutcome.success).1 ∧
    DiskBalanced (clear_index (V := V) (M := M) d SaveOutcome.success).2.1 := by
  refine ⟨by simp [clear_index, createIndex, DBBalanced], ?_⟩
  exact save_index_balanced (createIndex V M) d rfl

/-- An index operation all of whose disk writes succeed. -/
def OpWritesOk {V M : Type} : IndexOp V M → Prop
  | .create => True
  | .load => True
  | .add w _ _ _ => w = SaveOutcome.success
  | .addBatch wok _ _ _ => ∀ n, wok n = SaveOutcome.success
  | .removeOwner w _ => w = SaveOutcome.success
  | .clear w => w = SaveOutcome.success

theorem applyOp_balanced {V M : Type} [Inhabited V] (ops : VecOps V)
    (op : IndexOp V M) (s : FaissDB V M × DiskState V M)
    (h1 : DBBalanced s.1) (h2 : DiskBalanced s.2) (hw : OpWritesOk op) :
    DBBalanced (applyOp ops s op).1 ∧ DiskBalanced (applyOp ops s op).2 := by
  cases op with
  | create => exact ⟨by simp [applyOp, createIndex, DBBalanced], h2⟩
  | load => exact ⟨loadIndex_balanced s.2 h2, h2⟩
  | add w v sid meta =>
    have hww : w = SaveOutcome.success := hw
    subst hww
    obtain ⟨a, b⟩ := add_embedding_balanced ops s.1 s.2 v sid meta h1
    exact ⟨a, b⟩
  | addBatch wok vs sid meta =>
    have hww : ∀ n, wok n = SaveOutcome.success := hw
    obtain ⟨a, b⟩ := add_multiple_balanced ops wok sid meta hww vs s.1 s.2 0 h1 h2
    exact ⟨a, b⟩
  | removeOwner w sid =>
    have hww : w = SaveOutcome.success := hw
    subst hww
    obtain ⟨a, b⟩ := remove_balanced s.1 s.2 sid h1 h2
    exact ⟨a, b⟩
  | clear w =>
    have hww : w = SaveOutcome.success := hw
    subst hww
    obtain ⟨a, b⟩ := clear_balanced (V := V) (M := M) s.2
    exact ⟨a, b⟩

theorem runOps_balanced {V M : Type} [Inhabited V] (ops : VecOps V) :
    ∀ (l : List (IndexOp V M)) (s : FaissDB V M × DiskState V M),
      (∀ op ∈ l, OpWritesOk op) →
      DBBalanced s.1 → DiskBalanced s.2 →
      DBBalanced (runOps ops s l).1 ∧ DiskBalanced (runOps ops s l).2 := by
  intro l
  induction l with
  | nil => intro s _ h1 h2; exact ⟨h1, h2⟩
  | cons op rest ih =>
    intro s hw h1 h2
    obtain ⟨a, b⟩ := applyOp_balanced ops op s h1 h2
      (hw op (List.mem_cons_self op rest))
    exact ih (applyOp ops s op) (fun x hx => hw x (List.mem_cons_of_mem op hx)) a b

/-- C9 (amended): along any sequence of index operations started from a
fresh index and a disk without mismatched readable data, provided every
disk write in the sequence succeeds, the owner-id sequence and the
stored-vector sequence have equal length after each operation (one owner id
per slot) and the two files always hold data written by the same save.
(A save whose second write fails breaks this; see the counterexample.) -/
theorem C9_parallel_structure {V M : Type} [Inhabited V] (ops : VecOps V)
    (l : List (IndexOp V M)) (d0 : DiskState V M) (hd : DiskBalanced d0)
    (hw : ∀ op ∈ l, OpWritesOk op) :
    DBBalanced (runOps ops (createIndex V M, d0) l).1 ∧
    DiskBalanced (runOps ops (createIndex V M, d0) l).2 :=
  runOps_balanced ops l (createIndex V M, d0) hw
    (by simp [createIndex, DBBalanced]) hd

theorem C9_parallel_structure_witness :
    DBBalanced (runOps (V := ℚ) (M := ℕ)
      { normalize := id, dist := fun a b => (a - b) * (a - b) }
      (createIndex ℚ ℕ, (FileState.missing, FileState.missing))
      [.add .success 1 7 none, .removeOwner .success 7, .load,
        .clear .success]).1 ∧
    DiskBalanced (runOps (V := ℚ) (M := ℕ)
      { normalize := id, dist := fun a b => (a - b) * (a - b) }
      (createIndex ℚ ℕ, (FileState.missing, FileState.missing))
      [.add .success 1 7 none, .removeOwner .success 7, .load,
        .clear .success]).2 :=
  C9_parallel_structure _ _ _ trivial (by
    intro op hop
    simp only [List.mem_cons, List.not_mem_nil, or_false] at hop
    rcases hop with rfl | rfl | rfl | rfl
    · rfl
    · rfl
    · trivial
    · rfl)

/-- C9 fails as stated: `save_index` writes the index file and the pickle
separately and re-raises on failure. When the pickle write of the second
add fails, the disk holds the new two-vector index file beside the stale
one-owner pickle; both files are readable, so a subsequent load succeeds
and yields an index whose owner-id sequence (length 1) no longer matches
its stored vectors (length 2) — the parallel-length invariant is broken. -/
theorem C9_parallel_structure_counterexample :
    (runOps (V := ℚ) (M := ℕ)
        { normalize := id, dist := fun a b => (a - b) * (a - b) }
        (createIndex ℚ ℕ, (FileState.missing, FileState.missing))
        [.add .success 1 7 none, .add (.failPickle false) 2 8 none,
          .load]).1.student_ids.length = 1 ∧
    (runOps (V := ℚ) (M := ℕ)
        { normalize := id, dist := fun a b => (a - b) * (a - b) }
        (createIndex ℚ ℕ, (FileState.missing, FileState.missing))
        [.add .success 1 7 none, .add (.failPickle false) 2 8 none,
          .load]).1.entries.length = 2 :=
  ⟨rfl, rfl⟩

theorem add_multiple_all_ok {V M : Type} (ops : VecOps V) (wok : ℕ → SaveOutcome)
    (sid : ℤ) (meta : Option M) (hwok : ∀ k, wok k = SaveOutcome.success) :
    ∀ (embs : List V) (db : FaissDB V M) (d : DiskState V M) (n : ℕ),
      (add_multiple_embeddings ops wok db d n embs sid meta).2.2.2 = true ∧
      (add_multiple_embeddings ops wok db d n embs sid meta).1.entries =
        db.entries ++ embs.map ops.normalize ∧
      (add_multiple_embeddings ops wok db d n embs sid meta).1.student_ids =
        db.student_ids ++ List.replicate embs.length sid := by
  intro embs
  induction embs with
  | nil =>
    intro db d n
    exact ⟨rfl, by simp [add_multiple_embeddings], by simp [add_multiple_embeddings]⟩
  | cons e rest ih =>
    intro db d n
    have hflag : (add_embedding ops db d (wok n) e sid meta).2.2.1 = true := by
      rw [hwok n]
      rfl
    have hstep : add_multiple_embeddings ops wok db d n (e :: rest) sid meta =
        add_multiple_embeddings ops wok (add_embedding ops db d (wok n) e sid meta).1
          (add_embedding ops db d (wok n) e sid meta).2.1 (n + 1) rest sid meta := by
      simp only [add_multiple_embeddings, hflag, if_true]
    obtain ⟨f, he, hs⟩ := ih (add_embedding ops db d (wok n) e sid meta).1
      (add_embedding ops db d (wok n) e sid meta).2.1 (n + 1)
    rw [hstep]
    refine ⟨f, ?_, ?_⟩
    · rw [he, add_embedding_fst]
      simp
    · rw [hs, add_embedding_fst]
      simp [List.replicate_succ]

/-- C7 (amended): when fewer than the required minimum number of embeddings
are extracted, processing fails reporting the actual and required counts and
leaves the index and its persisted state completely untouched; when at least
the minimum are extracted and every persistence write succeeds, processing
succeeds and the whole batch is committed. (All-or-nothing holds only in the
absence of mid-batch persistence failures; see the counterexample.) -/
theorem C7_enrollment_atomicity {V M F : Type} (ops : VecOps V)
    (extract : F → Option V) (wok : ℕ → SaveOutcome) (db : FaissDB V M)
    (d : DiskState V M) (frames : List F) (sid : ℤ) (min_faces : ℕ)
    (meta : Option M) :
    ((frames.filterMap extract).length < min_faces →
      process_student_frames ops extract wok db d frames sid min_faces meta =
        ({ success := false,
           message := .notEnough (frames.filterMap extract).length min_faces,
           embeddings_count := (frames.filterMap extract).length,
           valid_frames := none }, db, d)) ∧
    ((∀ k, wok k = SaveOutcome.success) →
      min_faces ≤ (frames.filterMap extract).length →
      (process_student_frames ops extract wok db d frames sid min_faces meta).1.success = true ∧
      (process_student_frames ops extract wok db d frames sid min_faces meta).2.1.entries =
        db.entries ++ (frames.filterMap extract).map ops.normalize ∧
      (process_student_frames ops extract wok db d frames sid min_faces meta).2.1.student_ids =
        db.student_ids ++ List.replicate (frames.filterMap extract).length sid) := by
  constructor
  · intro h
    unfold process_student_frames
    rw [if_pos h]
  · intro hwok hge
    obtain ⟨f, he, hs⟩ := add_multiple_all_ok ops wok sid meta hwok
      (frames.filterMap extract) db d 0
    unfold process_student_frames
    rw [if_neg (not_lt.mpr hge)]
    simp only [f, if_true]
    exact ⟨trivial, he, hs⟩

/-- Exact-arithmetic instance of the numpy/faiss kernels used for concrete
evaluations: scalar "vectors", identity normalization, squared difference
as the reported distance. -/
def exOps : VecOps ℚ :=
  { normalize := id, dist := fun a b => (a - b) * (a - b) }

/-- C7 fails as stated: each add persists individually, so when the first
disk write of a two-embedding batch fails, processing reports failure yet
one of the two embeddings is already committed to the in-memory index — a
partial commit. -/
theorem C7_enrollment_atomicity_counterexample :
    (([1, 2] : List ℚ).filterMap some).length = 2 ∧
    (process_student_frames exOps some (fun _ => SaveOutcome.failIndex false)
      (createIndex ℚ ℕ) (FileState.missing, FileState.missing)
      [1, 2] 7 1 none).1.success = false ∧
    (process_student_frames exOps some (fun _ => SaveOutcome.failIndex false)
      (createIndex ℚ ℕ) (FileState.missing, FileState.missing)
      [1, 2] 7 1 none).2.1.entries.length = 1 := by
  refine ⟨rfl, rfl, rfl⟩

theorem C7_enrollment_atomicity_witness :
    (process_student_frames exOps some (fun _ => SaveOutcome.success)
      (createIndex ℚ ℕ) (FileState.missing, FileState.missing)
      [1, 2] 7 2 none).1.success = true ∧
    (process_student_frames exOps some (fun _ => SaveOutcome.success)
      (createIndex ℚ ℕ) (FileState.missing, FileState.missing)
      [1, 2] 7 2 none).2.1.entries =
      (createIndex ℚ ℕ).entries ++ (([1, 2] : List ℚ).filterMap some).map exOps.normalize ∧
    (process_student_frames exOps some (fun _ => SaveOutcome.success)
      (createIndex ℚ ℕ) (FileState.missing, FileState.missing)
      [1, 2] 7 2 none).2.1.student_ids =
      (createIndex ℚ ℕ).student_ids ++
        List.replicate (([1, 2] : List ℚ).filterMap some).length 7 :=
  (C7_enrollment_atomicity exOps some (fun _ => SaveOutcome.success)
      (createIndex ℚ ℕ) (FileState.missing, FileState.missing)
      [1, 2] 7 2 none).2 (fun _ => rfl) (by decide)

theorem mem_insertSorted (x y : ℚ × ℕ) :
    ∀ l : List (ℚ × ℕ), y ∈ insertSorted x l ↔ y = x ∨ y ∈ l := by
  intro l
  induction l with
  | nil => simp [insertSorted]
  | cons z zs ih =>
    unfold insertSorted
    by_cases h : x.1 < z.1
    · rw [if_pos h]
      simp only [List.mem_cons]
    · rw [if_neg h]
      rw [List.mem_cons, ih, List.mem_cons]
      tauto

theorem length_insertSorted (x : ℚ × ℕ) :
    ∀ l : List (ℚ × ℕ), (insertSorted x l).length = l.length + 1 := by
  intro l
  induction l with
  | nil => rfl
  | cons z zs ih =>
    unfold insertSorted
    by_cases h : x.1 < z.1
    · rw [if_pos h]
      simp
    · rw [if_neg h]
      simp [ih]

theorem pairwise_insertSorted (x : ℚ × ℕ) :
    ∀ l : List (ℚ × ℕ), l.Pairwise (fun a b => a.1 ≤ b.1) →
      (insertSorted x l).Pairwise (fun a b => a.1 ≤ b.1) := by
  intro l
  induction l with
  | nil => intro _; simp [insertSorted]
  | cons z zs ih =>
    intro hp
    rw [List.pairwise_cons] at hp
    obtain ⟨hz, hzs⟩ := hp
    unfold insertSorted
    by_cases h : x.1 < z.1
    · rw [if_pos h]
      rw [List.pairwise_cons]
      refine ⟨?_, List.pairwise_cons.mpr ⟨hz, hzs⟩⟩
      intro b hb
      rcases List.mem_cons.mp hb with hbz | hbzs
      · rw [hbz]
        exact le_of_lt h
      · exact le_trans (le_of_lt h) (hz b hbzs)
    · rw [if_neg h]
      rw [List.pairwise_cons]
      refine ⟨?_, ih hzs⟩
      intro b hb
      rcases (mem_insertSorted x b zs).mp hb with hbx | hbzs
      · rw [hbx]
        exact le_of_not_lt h
      · exact hz b hbzs

theorem pairwise_sortPairs (l : List (ℚ × ℕ)) :
    (sortPairs l).Pairwise (fun a b => a.1 ≤ b.1) := by
  induction l with
  | nil => simp [sortPairs]
  | cons x xs ih => exact pairwise_insertSorted x _ ih

theorem mem_sortPairs (y : ℚ × ℕ) (l : List (ℚ × ℕ)) :
    y ∈ sortPairs l ↔ y ∈ l := by
  induction l with
  | nil => simp [sortPairs]
  | cons x xs ih =>
    unfold sortPairs
    rw [List.foldr_cons, mem_insertSorted]
    unfold sortPairs at ih
    rw [ih, List.mem_cons]

theorem pairwise_indexSearch {V : Type} (ops : VecOps V) (entries : List V)
    (qn : V) (k : ℕ) :
    (indexSearch ops entries qn k).Pairwise (fun a b => a.1 ≤ b.1) :=
  List.Pairwise.sublist (List.take_sublist k _) (pairwise_sortPairs _)

theorem length_indexSearch_le {V : Type} (ops : VecOps V) (entries : List V)
    (qn : V) (k : ℕ) : (indexSearch ops entries qn k).length ≤ k := by
  unfold indexSearch
  rw [List.length_take]
  exact min_le_left k _

theorem mem_indexSearch {V : Type} (ops : VecOps V) (entries : List V)
    (qn : V) (k : ℕ) (p : ℚ × ℕ) (hp : p ∈ indexSearch ops entries qn k) :
    ∃ ie ∈ entries.enum, p = (ops.dist ie.2 qn, ie.1) := by
  have h1 : p ∈ sortPairs (entries.enum.map (fun q => (ops.dist q.2 qn, q.1))) :=
    (List.take_sublist k _).mem hp
  rw [mem_sortPairs] at h1
  rcases List.mem_map.mp h1 with ⟨ie, hie, he⟩
  exact ⟨ie, hie, he.symm⟩

theorem mem_indexSearch_nonneg {V : Type} (ops : VecOps V)
    (hpos : ∀ a b, 0 ≤ ops.dist a b) (entries : List V) (qn : V) (k : ℕ)
    (p : ℚ × ℕ) (hp : p ∈ indexSearch ops entries qn k) : 0 ≤ p.1 := by
  rcases mem_indexSearch ops entries qn k p hp with ⟨ie, _, he⟩
  rw [he]
  exact hpos ie.2 qn

theorem filterMap_eq_map_filter {α β : Type} (P : α → Bool) (g : α → β)
    (f : α → Option β) (hf : ∀ a, f a = if P a then some (g a) else none) :
    ∀ l : List α, l.filterMap f = (l.filter P).map g := by
  intro l
  induction l with
  | nil => rfl
  | cons a as ih =>
    rw [List.filterMap_cons, List.filter_cons, hf a]
    by_cases h : P a = true
    · rw [if_pos h, if_pos h, List.map_cons, ih]
    · rw [if_neg h, if_neg h, ih]

theorem search_eq_map_filter {V M : Type} (ops : VecOps V) (db : FaissDB V M)
    (threshold : ℚ) (q : V) (k : ℕ) :
    search ops db threshold q k =
      ((indexSearch ops db.entries (ops.normalize q) k).filter
        (fun p => decide (p.2 < db.student_ids.length) && decide (p.1 < threshold))).map
        (fun p => (db.student_ids.getD p.2 0, 1 / (1 + p.1))) := by
  have hf : ∀ p : ℚ × ℕ,
      (if p.2 < db.student_ids.length then
        if p.1 < threshold then
          some ((db.student_ids.getD p.2 0, 1 / (1 + p.1)) : ℤ × ℚ)
        else none
      else none) =
      if (decide (p.2 < db.student_ids.length) && decide (p.1 < threshold)) then
        some ((db.student_ids.getD p.2 0, 1 / (1 + p.1)) : ℤ × ℚ)
      else none := by
    intro p
    by_cases h1 : p.2 < db.student_ids.length
    · by_cases h2 : p.1 < threshold
      · simp [h1, h2]
      · simp [h1, h2]
    · simp [h1]
  unfold search
  by_cases hz : db.entries.length = 0
  · rw [if_pos hz]
    have he : db.entries = [] := List.length_eq_zero.mp hz
    rw [he]
    simp [indexSearch, sortPairs]
  · rw [if_neg hz]
    exact filterMap_eq_map_filter _ _ _ hf _

/-- C2 (amended): `search` normalizes the query, returns at most `k` results
sorted by descending similarity, and — among the `k` nearest neighbors
reported by the underlying index — accepts a neighbor with a valid slot if
and only if its raw distance is strictly below the configured cutoff (the
accept test uses the raw distance, never the derived similarity), reporting
the pair (ownerId at that slot, 1 / (1 + distance)). -/
theorem C2_search_postcondition (V M : Type) (ops : VecOps V)
    (db : FaissDB V M) (threshold : ℚ) (q : V) (k : ℕ)
    (hpos : ∀ a b, 0 ≤ ops.dist a b) :
    (search ops db threshold q k).length ≤ k ∧
    (search ops db threshold q k).Pairwise (fun a b => b.2 ≤ a.2) ∧
    (∀ p ∈ indexSearch ops db.entries (ops.normalize q) k,
      p.2 < db.student_ids.length → p.1 < threshold →
      (db.student_ids.getD p.2 0, 1 / (1 + p.1)) ∈ search ops db threshold q k) ∧
    (∀ x ∈ search ops db threshold q k,
      ∃ p ∈ indexSearch ops db.entries (ops.normalize q) k,
        p.2 < db.student_ids.length ∧ p.1 < threshold ∧
        x = (db.student_ids.getD p.2 0, 1 / (1 + p.1))) := by
  rw [search_eq_map_filter]
  refine ⟨?_, ?_, ?_, ?_⟩
  · rw [List.length_map]
    exact le_trans (List.length_filter_le _ _) (length_indexSearch_le ops _ _ k)
  · rw [List.pairwise_map]
    have hpw : ((indexSearch ops db.entries (ops.normalize q) k).filter
        (fun p => decide (p.2 < db.student_ids.length) &&
          decide (p.1 < threshold))).Pairwise (fun a b => a.1 ≤ b.1) :=
      (pairwise_indexSearch ops db.entries (ops.normalize q) k).filter _
    apply hpw.imp_of_mem
    intro a b ha hb hab
    have ha' : 0 ≤ a.1 := mem_indexSearch_nonneg ops hpos _ _ _ a
      ((List.filter_sublist _).mem ha)
    have hpos1 : (0:ℚ) < 1 + a.1 := by linarith
    have hle : 1 + a.1 ≤ 1 + b.1 := by linarith
    exact one_div_le_one_div_of_le hpos1 hle
  · intro p hp h1 h2
    apply List.mem_map.mpr
    refine ⟨p, List.mem_filter.mpr ⟨hp, ?_⟩, rfl⟩
    simp [h1, h2]
  · intro x hx
    rcases List.mem_map.mp hx with ⟨p, hpf, he⟩
    have hp := List.mem_filter.mp hpf
    refine ⟨p, hp.1, ?_, ?_, he.symm⟩
    · have := hp.2
      simp only [Bool.and_eq_true, decide_eq_true_eq] at this
      exact this.1
    · have := hp.2
      simp only [Bool.and_eq_true, decide_eq_true_eq] at this
      exact this.2

/-- Two-entry example index: owners 1 and 2 at slots 0 and 1. -/
def exDB : FaissDB ℚ ℕ := ⟨[0, 3], [1, 2], []⟩

theorem C2_search_postcondition_witness :
    (search exOps exDB 100 0 1).length ≤ 1 ∧
    (search exOps exDB 100 0 1).Pairwise (fun a b => b.2 ≤ a.2) ∧
    (∀ p ∈ indexSearch exOps exDB.entries (exOps.normalize 0) 1,
      p.2 < exDB.student_ids.length → p.1 < 100 →
      (exDB.student_ids.getD p.2 0, 1 / (1 + p.1)) ∈ search exOps exDB 100 0 1) ∧
    (∀ x ∈ search exOps exDB 100 0 1,
      ∃ p ∈ indexSearch exOps exDB.entries (exOps.normalize 0) 1,
        p.2 < exDB.student_ids.length ∧ p.1 < 100 ∧
        x = (exDB.student_ids.getD p.2 0, 1 / (1 + p.1))) :=
  C2_search_postcondition ℚ ℕ exOps exDB 100 0 1 (fun x _ => mul_self_nonneg (x - _))

/-- C2 fails as stated: with two stored entries both strictly under the
cutoff and k = 1, the index reports only the single nearest neighbor — the
stored entry at slot 1 (owner 2) has raw distance 9 < 100 yet no result for
owner 2 is returned, refuting "includes a stored neighbor if and only if its
raw distance is strictly below the configured cutoff". -/
theorem C2_search_postcondition_counterexample :
    exOps.dist (exDB.entries.getD 1 0) (exOps.normalize 0) < 100 ∧
    exDB.student_ids.getD 1 0 = 2 ∧
    (∀ x ∈ search exOps exDB 100 0 1, x.1 ≠ 2) := by
  have hs : search exOps exDB 100 0 1 = [(1, 1)] := by
    simp only [search, exDB, exOps, indexSearch, sortPairs, List.enum,
      List.enumFrom, List.map, List.foldr, insertSorted]
    norm_num
    norm_num [List.filterMap_cons, List.getD]
  refine ⟨?_, by decide, ?_⟩
  · norm_num [exOps, exDB, List.getD]
  · rw [hs]
    intro x hx
    rw [List.mem_singleton] at hx
    subst hx
    decide

theorem range_filter_map_getD {α β : Type} (d : α) (q : α → Bool) (f : α → β) :
    ∀ l : List α,
      ((List.range l.length).filter (fun i => q (l.getD i d))).map
        (fun i => f (l.getD i d)) = (l.filter q).map f := by
  intro l
  induction l with
  | nil => rfl
  | cons a t ih =>
    have h1 : ((fun i => q ((a :: t).getD i d)) ∘ Nat.succ) =
        (fun i => q (t.getD i d)) := by
      funext i
      simp [List.getD_cons_succ]
    have h2 : ((fun i => f ((a :: t).getD i d)) ∘ Nat.succ) =
        (fun i => f (t.getD i d)) := by
      funext i
      simp [List.getD_cons_succ]
    rw [List.length_cons, List.range_succ_eq_map, List.filter_cons]
    by_cases hq : q ((a :: t).getD 0 d) = true
    · rw [if_pos hq, List.map_cons, List.filter_map, List.map_map, h1, h2, ih]
      have hq' : q a = true := by simpa using hq
      rw [List.filter_cons, if_pos hq', List.map_cons]
      simp
    · rw [if_neg hq, List.filter_map, List.map_map, h1, h2, ih]
      have hq' : ¬ q a = true := by simpa using hq
      rw [List.filter_cons, if_neg hq']

theorem zip_getD_fst {V : Type} [Inhabited V] :
    ∀ (l1 : List ℤ) (l2 : List V) (i : ℕ), l1.length = l2.length →
      ((l1.zip l2).getD i ((0 : ℤ), (default : V))).1 = l1.getD i 0 := by
  intro l1
  induction l1 with
  | nil => intro l2 i _; cases l2 <;> rfl
  | cons a t ih =>
    intro l2 i h
    cases l2 with
    | nil => simp at h
    | cons b t2 =>
      cases i with
      | zero => rfl
      | succ j =>
        have := ih t2 j (by simpa using h)
        simpa using this

theorem zip_getD_snd {V : Type} [Inhabited V] :
    ∀ (l1 : List ℤ) (l2 : List V) (i : ℕ), l1.length = l2.length →
      ((l1.zip l2).getD i ((0 : ℤ), (default : V))).2 = l2.getD i default := by
  intro l1
  induction l1 with
  | nil =>
    intro l2 i h
    cases l2 with
    | nil => rfl
    | cons b t2 => simp at h
  | cons a t ih =>
    intro l2 i h
    cases l2 with
    | nil => simp at h
    | cons b t2 =>
      cases i with
      | zero => rfl
      | succ j =>
        have := ih t2 j (by simpa using h)
        simpa using this

theorem filter_ne_length {γ : Type} (key : γ → ℤ) (sid : ℤ) :
    ∀ l : List γ, (l.filter (fun p => key p ≠ sid)).length =
      l.length - (l.filter (fun p => key p = sid)).length := by
  intro l
  induction l with
  | nil => rfl
  | cons x xs ih =>
    have hle := List.length_filter_le (fun p => decide (key p = sid)) xs
    by_cases h : key x = sid
    · rw [List.filter_cons, List.filter_cons, if_neg (by simp [h]),
        if_pos (by simp [h]), ih]
      simp only [List.length_cons]
      omega
    · rw [List.filter_cons, List.filter_cons, if_pos (by simp [h]),
        if_neg (by simp [h])]
      simp only [List.length_cons]
      rw [ih]
      omega

theorem remapMeta_key_ge {M : Type} (meta : List (ℕ × M)) :
    ∀ (keep : List ℕ) (s : ℕ) (kv : ℕ × M),
      kv ∈ remapMeta meta keep s → s ≤ kv.1 := by
  intro keep
  induction keep with
  | nil => intro s kv h; simp [remapMeta] at h
  | cons old rest ih =>
    intro s kv h
    unfold remapMeta at h
    cases hm : meta.lookup old with
    | some v =>
      rw [hm] at h
      rcases List.mem_cons.mp h with h1 | h1
      · rw [h1]
      · exact le_trans (Nat.le_succ s) (ih (s + 1) kv h1)
    | none =>
      rw [hm] at h
      exact le_trans (Nat.le_succ s) (ih (s + 1) kv h)

theorem lookup_none_of_lt {M : Type} :
    ∀ (l : List (ℕ × M)) (bound k : ℕ), (∀ kv ∈ l, bound ≤ kv.1) → k < bound →
      l.lookup k = none := by
  intro l
  induction l with
  | nil => intro bound k _ _; rfl
  | cons p rest ih =>
    intro bound k hb hk
    have hp := hb p (List.mem_cons_self p rest)
    have hne : (k == p.1) = false := by
      simp only [beq_eq_false_iff_ne, ne_eq]
      omega
    rcases p with ⟨pk, pv⟩
    rw [List.lookup_cons]
    simp only at hne hp
    rw [hne]
    exact ih bound k (fun kv hkv => hb kv (List.mem_cons_of_mem _ hkv)) hk

theorem remapMeta_lookup {M : Type} (meta : List (ℕ × M)) :
    ∀ (keep : List ℕ) (s n : ℕ),
      (remapMeta meta keep s).lookup (s + n) =
        (keep[n]?).bind (fun old => meta.lookup old) := by
  intro keep
  induction keep with
  | nil => intro s n; simp [remapMeta]
  | cons old rest ih =>
    intro s n
    unfold remapMeta
    cases hm : meta.lookup old with
    | some v =>
      cases n with
      | zero =>
        rw [List.lookup_cons]
        have ht : (s + 0 == s) = true := by simp
        rw [ht]
        simp [hm]
      | succ j =>
        rw [List.lookup_cons]
        have hf : (s + (j + 1) == s) = false := by
          simp only [beq_eq_false_iff_ne, ne_eq]
          omega
        rw [hf]
        have h2 : s + (j + 1) = (s + 1) + j := by omega
        rw [h2, ih (s + 1) j]
        simp
    | none =>
      cases n with
      | zero =>
        rw [lookup_none_of_lt _ (s + 1) (s + 0)
          (fun kv hkv => remapMeta_key_ge meta rest (s + 1) kv hkv) (by omega)]
        simp [hm]
      | succ j =>
        have h2 : s + (j + 1) = (s + 1) + j := by omega
        rw [h2, ih (s + 1) j]
        simp

theorem remove_keep_fst {V M : Type} [Inhabited V] (db : FaissDB V M) (sid : ℤ)
    (hlen : DBBalanced db) :
    ((List.range db.student_ids.length).filter
        (fun i => db.student_ids.getD i 0 ≠ sid)).map
      (fun i => db.student_ids.getD i 0) =
      ((db.student_ids.zip db.entries).filter (fun p => p.1 ≠ sid)).map Prod.fst := by
  have hb : db.student_ids.length = db.entries.length := hlen
  have hzlen : (db.student_ids.zip db.entries).length = db.student_ids.length := by
    rw [List.length_zip, hb, Nat.min_self]
  have h := range_filter_map_getD ((0 : ℤ), (default : V))
    (fun p => decide (p.1 ≠ sid)) Prod.fst (db.student_ids.zip db.entries)
  rw [hzlen] at h
  have hfst : ∀ i, ((db.student_ids.zip db.entries).getD i ((0:ℤ), (default : V))).1 =
      db.student_ids.getD i 0 := fun i => zip_getD_fst _ _ i hb
  simp only [hfst] at h
  exact h

theorem remove_keep_snd {V M : Type} [Inhabited V] (db : FaissDB V M) (sid : ℤ)
    (hlen : DBBalanced db) :
    ((List.range db.student_ids.length).filter
        (fun i => db.student_ids.getD i 0 ≠ sid)).map
      (fun i => db.entries.getD i default) =
      ((db.student_ids.zip db.entries).filter (fun p => p.1 ≠ sid)).map Prod.snd := by
  have hb : db.student_ids.length = db.entries.length := hlen
  have hzlen : (db.student_ids.zip db.entries).length = db.student_ids.length := by
    rw [List.length_zip, hb, Nat.min_self]
  have h := range_filter_map_getD ((0 : ℤ), (default : V))
    (fun p => decide (p.1 ≠ sid)) Prod.snd (db.student_ids.zip db.entries)
  rw [hzlen] at h
  have hfst : ∀ i, ((db.student_ids.zip db.entries).getD i ((0:ℤ), (default : V))).1 =
      db.student_ids.getD i 0 := fun i => zip_getD_fst _ _ i hb
  have hsnd : ∀ i, ((db.student_ids.zip db.entries).getD i ((0:ℤ), (default : V))).2 =
      db.entries.getD i default := fun i => zip_getD_snd _ _ i hb
  simp only [hfst, hsnd] at h
  exact h

theorem count_eq_filter_eq (l : List ℤ) (sid : ℤ) :
    l.count sid = (l.filter (fun x => x = sid)).length := by
  induction l with
  | nil => rfl
  | cons x xs ih =>
    by_cases h : x = sid
    · rw [List.count_cons, List.filter_cons, if_pos (by simp [h])]
      simp [h, ih]
    · rw [List.count_cons, List.filter_cons, if_neg (by simp [h])]
      simp [h, ih]

theorem zip_count_sid {V M : Type} (db : FaissDB V M) (sid : ℤ)
    (hlen : DBBalanced db) :
    db.student_ids.count sid =
      ((db.student_ids.zip db.entries).filter (fun p => p.1 = sid)).length := by
  have hb : db.student_ids.length = db.entries.length := hlen
  have hmapfst : (db.student_ids.zip db.entries).map Prod.fst = db.student_ids :=
    List.map_fst_zip _ _ (le_of_eq hb)
  rw [count_eq_filter_eq]
  conv_lhs => rw [← hmapfst]
  rw [List.filter_map, List.length_map]
  rfl

theorem remove_keep_length {V M : Type} [Inhabited V] (db : FaissDB V M)
    (sid : ℤ) (hlen : DBBalanced db) :
    ((List.range db.student_ids.length).filter
        (fun i => db.student_ids.getD i 0 ≠ sid)).length =
      db.student_ids.length - db.student_ids.count sid := by
  have hb : db.student_ids.length = db.entries.length := hlen
  have hzlen : (db.student_ids.zip db.entries).length = db.student_ids.length := by
    rw [List.length_zip, hb, Nat.min_self]
  have h1 : ((List.range db.student_ids.length).filter
      (fun i => db.student_ids.getD i 0 ≠ sid)).length =
      (((List.range db.student_ids.length).filter
        (fun i => db.student_ids.getD i 0 ≠ sid)).map
        (fun i => db.student_ids.getD i 0)).length := by
    rw [List.length_map]
  rw [h1, remove_keep_fst db sid hlen, List.length_map,
    filter_ne_length Prod.fst sid, hzlen, zip_count_sid db sid hlen]

/-- C4: removing an owner leaves zero entries for that owner, shrinks the
total by exactly the owner's prior count, keeps the surviving entries
associated with their original owner in their original relative order,
remaps the slot-keyed metadata to the survivors' new slots, and persists the
rebuilt state; when the owner has no entries the call changes nothing and
does not persist. -/
theorem C4_remove_owner_postcondition {V M : Type} [Inhabited V]
    (db : FaissDB V M) (d : DiskState V M) (sid : ℤ) (hlen : DBBalanced db) :
    (get_student_embedding_count db sid = 0 →
      ∀ w : SaveOutcome, remove_student_embeddings db d w sid = (db, d, true)) ∧
    (0 < get_student_embedding_count db sid →
      get_student_embedding_count
        (remove_student_embeddings db d SaveOutcome.success sid).1 sid = 0 ∧
      get_total_embeddings (remove_student_embeddings db d SaveOutcome.success sid).1 =
        get_total_embeddings db - get_student_embedding_count db sid ∧
      (remove_student_embeddings db d SaveOutcome.success sid).1.student_ids.zip
          (remove_student_embeddings db d SaveOutcome.success sid).1.entries =
        (db.student_ids.zip db.entries).filter (fun p => p.1 ≠ sid) ∧
      (∀ n : ℕ,
        ((remove_student_embeddings db d SaveOutcome.success sid).1.embeddings_data).lookup n =
        ((((List.range db.student_ids.length).filter
            (fun i => db.student_ids.getD i 0 ≠ sid))[n]?).bind
          (fun old => db.embeddings_data.lookup old))) ∧
      (remove_student_embeddings db d SaveOutcome.success sid).2.1 =
        (FileState.good (remove_student_embeddings db d SaveOutcome.success sid).1.entries,
          FileState.good
            ((remove_student_embeddings db d SaveOutcome.success sid).1.student_ids,
              (remove_student_embeddings db d SaveOutcome.success sid).1.embeddings_data)) ∧
      (remove_student_embeddings db d SaveOutcome.success sid).2.2 = true) := by
  have hb : db.student_ids.length = db.entries.length := hlen
  have hkl := remove_keep_length db sid hlen
  have hcle : db.student_ids.count sid ≤ db.student_ids.length :=
    List.count_le_length sid db.student_ids
  constructor
  · intro h0 ok
    apply remove_noop_eq
    unfold get_student_embedding_count at h0
    rw [hkl, h0]
    omega
  · intro hpos0
    unfold get_student_embedding_count at hpos0
    have hne : ¬ ((List.range db.student_ids.length).filter
        (fun i => db.student_ids.getD i 0 ≠ sid)).length =
        db.student_ids.length := by
      rw [hkl]
      omega
    by_cases hkp : 0 < ((List.range db.student_ids.length).filter
        (fun i => db.student_ids.getD i 0 ≠ sid)).length
    · rw [remove_rebuild_eq db d SaveOutcome.success sid hne hkp]
      have h1 : (((List.range db.student_ids.length).filter
          (fun i => db.student_ids.getD i 0 ≠ sid)).map
          (fun i => db.student_ids.getD i 0)).count sid = 0 := by
        rw [remove_keep_fst db sid hlen]
        rw [List.count_eq_zero]
        intro hmem
        rcases List.mem_map.mp hmem with ⟨p, hpf, hp1⟩
        have hq := (List.mem_filter.mp hpf).2
        simp only [decide_eq_true_eq] at hq
        exact hq hp1
      have h2 : (((List.range db.student_ids.length).filter
          (fun i => db.student_ids.getD i 0 ≠ sid)).map
          (fun i => db.entries.getD i default)).length =
          db.entries.length - db.student_ids.count sid := by
        rw [List.length_map, hkl, hb]
      have h3 : (((List.range db.student_ids.length).filter
          (fun i => db.student_ids.getD i 0 ≠ sid)).map
          (fun i => db.student_ids.getD i 0)).zip
          (((List.range db.student_ids.length).filter
          (fun i => db.student_ids.getD i 0 ≠ sid)).map
          (fun i => db.entries.getD i default)) =
          (db.student_ids.zip db.entries).filter (fun p => p.1 ≠ sid) := by
        rw [remove_keep_fst db sid hlen, remove_keep_snd db sid hlen,
          List.zip_map']
        simp
      have h4 : ∀ n : ℕ, (remapMeta db.embeddings_data
          ((List.range db.student_ids.length).filter
            (fun i => db.student_ids.getD i 0 ≠ sid)) 0).lookup n =
          ((((List.range db.student_ids.length).filter
            (fun i => db.student_ids.getD i 0 ≠ sid))[n]?).bind
            (fun old => db.embeddings_data.lookup old)) := by
        intro n
        have h := remapMeta_lookup db.embeddings_data
          ((List.range db.student_ids.length).filter
            (fun i => db.student_ids.getD i 0 ≠ sid)) 0 n
        simpa using h
      exact ⟨h1, h2, h3, h4, rfl, rfl⟩
    · have hz : ((List.range db.student_ids.length).filter
          (fun i => db.student_ids.getD i 0 ≠ sid)).length = 0 := by omega
      rw [remove_clear_eq db d SaveOutcome.success sid hne hz]
      have hzf : (db.student_ids.zip db.entries).filter
          (fun p => p.1 ≠ sid) = [] := by
        have hlen2 : ((List.range db.student_ids.length).filter
            (fun i => db.student_ids.getD i 0 ≠ sid)).length =
            ((db.student_ids.zip db.entries).filter
              (fun p => p.1 ≠ sid)).length := by
          have h1 : ((List.range db.student_ids.length).filter
              (fun i => db.student_ids.getD i 0 ≠ sid)).length =
              (((List.range db.student_ids.length).filter
                (fun i => db.student_ids.getD i 0 ≠ sid)).map
                (fun i => db.student_ids.getD i 0)).length := by
            rw [List.length_map]
          rw [h1, remove_keep_fst db sid hlen, List.length_map]
        rw [hlen2] at hz
        exact List.length_eq_zero.mp hz
      have hkeepnil : ((List.range db.student_ids.length).filter
          (fun i => db.student_ids.getD i 0 ≠ sid)) = [] :=
        List.length_eq_zero.mp hz
      refine ⟨rfl, ?_, ?_, ?_, rfl, rfl⟩
      · show 0 = db.entries.length - db.student_ids.count sid
        rw [hkl] at hz
        omega
      · show ([] : List (ℤ × V)) = _
        exact hzf.symm
      · intro n
        rw [hkeepnil]
        simp [createIndex, remapMeta]

def exDB4 : FaissDB ℚ ℕ := ⟨[1, 2, 3], [7, 8, 7], [(0, 5), (2, 6)]⟩

theorem C4_remove_owner_postcondition_witness :
    get_student_embedding_count
      (remove_student_embeddings exDB4 (FileState.missing, FileState.missing)
        SaveOutcome.success 7).1 7 = 0 ∧
    get_total_embeddings
      (remove_student_embeddings exDB4 (FileState.missing, FileState.missing)
        SaveOutcome.success 7).1 =
      get_total_embeddings exDB4 - get_student_embedding_count exDB4 7 ∧
    (remove_student_embeddings exDB4 (FileState.missing, FileState.missing)
        SaveOutcome.success 7).1.student_ids.zip
      (remove_student_embeddings exDB4 (FileState.missing, FileState.missing)
        SaveOutcome.success 7).1.entries =
      (exDB4.student_ids.zip exDB4.entries).filter (fun p => p.1 ≠ 7) ∧
    (∀ n : ℕ,
      ((remove_student_embeddings exDB4 (FileState.missing, FileState.missing)
        SaveOutcome.success 7).1.embeddings_data).lookup n =
      ((((List.range exDB4.student_ids.length).filter
          (fun i => exDB4.student_ids.getD i 0 ≠ 7))[n]?).bind
        (fun old => exDB4.embeddings_data.lookup old))) ∧
    (remove_student_embeddings exDB4 (FileState.missing, FileState.missing)
        SaveOutcome.success 7).2.1 =
      (FileState.good
          (remove_student_embeddings exDB4 (FileState.missing, FileState.missing)
            SaveOutcome.success 7).1.entries,
        FileState.good
          ((remove_student_embeddings exDB4 (FileState.missing, FileState.missing)
            SaveOutcome.success 7).1.student_ids,
            (remove_student_embeddings exDB4 (FileState.missing, FileState.missing)
              SaveOutcome.success 7).1.embeddings_data)) ∧
    (remove_student_embeddings exDB4 (FileState.missing, FileState.missing)
        SaveOutcome.success 7).2.2 = true :=
  (C4_remove_owner_postcondition exDB4 (FileState.missing, FileState.missing) 7 rfl).2
    (by decide)
